import Mathlib

/-!
Verification development for the code generator of the pragmatic_script
("pgs") language.  The Rust sources under scrutiny are the compiler
(`src/codegen/compiler.rs`) and the standalone expression type checker
(`src/codegen/checker.rs`).  The data model (AST, contexts, instructions)
follows the source and, where a supporting module of the repository is not
part of the provided sources (ast.rs, context.rs, register.rs, builder.rs,
instruction.rs, data.rs, the api module), the specification document.

Modelling conventions:
 - Rust `usize` values are `Nat`; signed offsets are `Int`.
 - Fallible methods returning `CompilerResult<T>` become functions into
   `Outcome`, which has a third constructor `panic` used exactly where the
   Rust source can panic (an `unwrap` of `None`, see `resolve_function`).
 - Byte buffers of emitted instructions are modelled as `List Instr`;
   builder offsets count instructions rather than bytes.  All properties
   verified here are insensitive to that choice (they concern instruction
   operands and counts, never byte distances inside the code buffer).
 - `f32` literals are carried opaquely as their bit pattern; the compiler
   never inspects them.
-/

namespace Pgs

/-- Source language types (`parser::ast::Type`); ast.rs is not among the
provided sources, so the constructor list is taken from the spec (§3) and
from the exhaustive uses in compiler.rs. -/
inductive Ty where
  | int
  | float
  | bool
  | string
  | void
  | reference (inner : Ty)
  | array (inner : Ty) (size : Nat)
  | other (name : String)
  | auto
  | autoArray (inner : Ty)
deriving DecidableEq

/-- Source language expressions (`parser::ast::Expression`), constructor
list from the spec (§3) and the match arms of compiler.rs / checker.rs.
Boxes are flattened; `f32` literals carry their bit pattern. -/
inductive Expression where
  | intLiteral (value : Int)
  | floatLiteral (bits : Nat)
  | boolLiteral (value : Bool)
  | stringLiteral (value : String)
  | variable (name : String)
  | call (name : String) (args : List Expression)
  | addition (lhs rhs : Expression)
  | subtraction (lhs rhs : Expression)
  | multiplication (lhs rhs : Expression)
  | division (lhs rhs : Expression)
  | lessThan (lhs rhs : Expression)
  | greaterThan (lhs rhs : Expression)
  | lessThanEquals (lhs rhs : Expression)
  | greaterThanEquals (lhs rhs : Expression)
  | equals (lhs rhs : Expression)
  | notEquals (lhs rhs : Expression)
  | not (op : Expression)
  | and (lhs rhs : Expression)
  | or (lhs rhs : Expression)
  | assign (lhs rhs : Expression)
  | addAssign (lhs rhs : Expression)
  | subAssign (lhs rhs : Expression)
  | mulAssign (lhs rhs : Expression)
  | divAssign (lhs rhs : Expression)

/-- Source language statements (`parser::ast::Statement`).  The
`IfStatementArgs` struct is flattened into the `ifStmt` constructor:
condition, then-block, optional else-if list, optional else-block. -/
inductive Statement where
  | variableDecl (name : String) (var_type : Ty) (assignment : Expression)
  | expression (expr : Expression)
  | ret (expr : Option Expression)
  | ifStmt (if_expr : Expression) (if_block : List Statement)
      (else_if_list : Option (List (Expression × List Statement)))
      (else_block : Option (List Statement))
  | whileStmt (cond : Expression) (body : List Statement)
  | cont
  | brk

/-- Compiler errors (`CompilerError` in compiler.rs). -/
inductive CompilerErr where
  | unknown
  | unimplemented (msg : String)
  | duplicate_variable (name : String)
  | duplicate_member (name : String)
  | duplicate_function (name : String)
  | duplicate_module (name : String)
  | duplicate_container (name : String)
  | duplicate_import (name : String)
  | unknown_function (name : String)
  | unknown_container (name : String)
  | unknown_variable (name : String)
  | unknown_module (name : String)
  | unknown_type (ty : Ty)
  | unsupported_expression (expr : Expression)
  | type_mismatch (expected got : Ty)
  | register_mapping

/-- Result of running a compiler operation: success, a returned
`CompilerError`, or a Rust panic (e.g. `Option::unwrap` on `None`). -/
inductive Outcome (α : Type) where
  | ok (a : α)
  | err (e : CompilerErr)
  | panic

/-- Sequencing of fallible compiler operations (the `?` operator);
panics propagate. -/
def obind {α β : Type} : Outcome α → (α → Outcome β) → Outcome β
  | .ok a, f => f a
  | .err e, _ => .err e
  | .panic, _ => .panic

/-- VM registers: the general purpose file `R0..Rn` plus the stack
pointer.  register.rs is not among the provided sources; modelled from the
spec (§4.B, glossary). -/
inductive Reg where
  | r (index : Nat)
  | sp
deriving DecidableEq

/-- VM instructions with typed operands, one constructor per opcode
emitted by compiler.rs (spec §6 lists the operand shapes).  Jump targets
are plain numbers (initially a symbolic tag, later patched). -/
inductive Instr where
  | LDI (value : Int) (dst : Reg)
  | LDF (bits : Nat) (dst : Reg)
  | LDB (value : Bool) (dst : Reg)
  | LDA (value : Nat) (dst : Reg)
  | MOVI (src dst : Reg)
  | MOVF (src dst : Reg)
  | MOVB (src dst : Reg)
  | MOVA (src dst : Reg)
  | MOVI_RA (src : Reg) (base : Reg) (offset : Int)
  | MOVF_RA (src : Reg) (base : Reg) (offset : Int)
  | MOVB_RA (src : Reg) (base : Reg) (offset : Int)
  | MOVA_RA (src : Reg) (base : Reg) (offset : Int)
  | MOVI_AR (base : Reg) (offset : Int) (dst : Reg)
  | MOVF_AR (base : Reg) (offset : Int) (dst : Reg)
  | MOVB_AR (base : Reg) (offset : Int) (dst : Reg)
  | MOVA_AR (base : Reg) (offset : Int) (dst : Reg)
  | MOVN_A (src_base : Reg) (src_offset : Int) (dst_base : Reg) (dst_offset : Int) (len : Nat)
  | ADDI (a b dst : Reg)
  | ADDF (a b dst : Reg)
  | SUBI (a b dst : Reg)
  | SUBF (a b dst : Reg)
  | MULI (a b dst : Reg)
  | MULF (a b dst : Reg)
  | DIVI (a b dst : Reg)
  | DIVF (a b dst : Reg)
  | LTI (a b dst : Reg)
  | LTF (a b dst : Reg)
  | GTI (a b dst : Reg)
  | GTF (a b dst : Reg)
  | LTEQI (a b dst : Reg)
  | LTEQF (a b dst : Reg)
  | GTEQI (a b dst : Reg)
  | GTEQF (a b dst : Reg)
  | EQI (a b dst : Reg)
  | EQF (a b dst : Reg)
  | NEQI (a b dst : Reg)
  | NEQF (a b dst : Reg)
  | NOT (op dst : Reg)
  | AND (a b dst : Reg)
  | OR (a b dst : Reg)
  | JMP (target : Nat)
  | JMPF (cond : Reg) (target : Nat)
  | JMPT (cond : Reg) (target : Nat)
  | CALL (uid : Nat)
  | RET
  | HALT (code : Nat)
  | SUBU_I (src : Reg) (amount : Nat) (dst : Reg)
  | ADDU_I (src : Reg) (amount : Nat) (dst : Reg)

/-- Helper `Instruction::new_dec_stack(size)`: shrink the stack
(`SUBU_I SP, size, SP`), as spelled out in compile_stack_cleanup_block. -/
def new_dec_stack (size : Nat) : Instr :=
  .SUBU_I .sp size .sp

/-- Helper `Instruction::new_inc_stack(size)`: grow the stack.  Modelled
from the spec (§6: "`ADDU_I` (or the inverse helper `new_inc_stack(k)`)
grows"). -/
def new_inc_stack (size : Nat) : Instr :=
  .ADDU_I .sp size .sp

/-- Function signature entry (`codegen::def::FunctionDef`); def.rs is not
among the provided sources, fields modelled from their uses in
compiler.rs (name, argument list, return type, uid). -/
structure FunctionDef where
  name : String
  arguments : List (String × Ty)
  ret_type : Ty
  uid : Nat

/-- Function (scope) context (`codegen::context::FunctionContext`);
context.rs is not among the provided sources, fields modelled from the
spec (§3) and the uses in compiler.rs.  `vars` maps a variable name to its
type and stack position (an `i64`; arguments live at negative positions).
`reg_cursor` is the per-context register allocator state: the number of
temporaries handed out so far (spec §4.B). -/
structure FunctionContext where
  stack_size : Nat
  vars : List (String × Ty × Int)
  reg_cursor : Nat
  weak : Bool
  is_loop : Bool
  ret_type : Ty

/-- Loop context (`codegen::context::LoopContext`): start offset of the
condition and the symbolic tag of the exit jumps (spec §3). -/
structure LoopContext where
  pos_start : Nat
  tag_end : Nat

/-- Module context (`codegen::context::ModuleContext`); context.rs is not
among the provided sources, fields modelled from the spec (§3):
name, function table, import table, nested modules. -/
inductive ModuleContext where
  | mk (name : String) (functions : List (String × FunctionDef))
      (imports : List (String × String))
      (modules : List (String × ModuleContext))

/-- Association list lookup (stands in for `HashMap::get`). -/
def lookup_assoc {κ α : Type} [DecidableEq κ] : List (κ × α) → κ → Option α
  | [], _ => none
  | (k, v) :: rest, key => if k = key then some v else lookup_assoc rest key

def ModuleContext.name : ModuleContext → String
  | .mk n _ _ _ => n

def ModuleContext.functions : ModuleContext → List (String × FunctionDef)
  | .mk _ fns _ _ => fns

def ModuleContext.imports : ModuleContext → List (String × String)
  | .mk _ _ imps _ => imps

def ModuleContext.modules : ModuleContext → List (String × ModuleContext)
  | .mk _ _ _ mods => mods

/-- `ModuleContext::new`: an empty module context with the given name. -/
def ModuleContext.new (name : String) : ModuleContext :=
  .mk name [] [] []

/-- `ModuleContext::add_function`: duplicate names are rejected
(spec §7: duplicate-symbol errors). -/
def ModuleContext.add_function (m : ModuleContext) (fd : FunctionDef) :
    Outcome ModuleContext :=
  match lookup_assoc m.functions fd.name with
  | some _ => .err (.duplicate_function fd.name)
  | none => .ok (.mk m.name ((fd.name, fd) :: m.functions) m.imports m.modules)

/-- `ModuleContext::add_module`: duplicate names are rejected. -/
def ModuleContext.add_module (m : ModuleContext) (child : ModuleContext) :
    Outcome ModuleContext :=
  match lookup_assoc m.modules child.name with
  | some _ => .err (.duplicate_module child.name)
  | none => .ok (.mk m.name m.functions m.imports ((child.name, child) :: m.modules))

/-- Foreign function descriptor (`api::function::Function`); the api
module is not among the provided sources, fields modelled from their uses
in `register_foreign_function` and the spec (§6: name, arg types, arg
sizes, arg offsets, return type; the opaque host callable is omitted). -/
structure ApiFunction where
  name : String
  arg_types : List Ty
  return_type : Ty
  arg_sizes : List Nat
  arg_offsets : List Int

/-- Foreign module tree (`api::module::Module`): name, functions, nested
modules (spec §6). -/
inductive ApiModule where
  | mk (name : String) (functions : List (String × ApiFunction))
      (modules : List (String × ApiModule))

def ApiModule.name : ApiModule → String
  | .mk n _ _ => n

def ApiModule.functions : ApiModule → List (String × ApiFunction)
  | .mk _ fns _ => fns

def ApiModule.modules : ApiModule → List (String × ApiModule)
  | .mk _ _ mods => mods

/-- The compiler state (struct `Compiler`).  The builder's code buffer,
tag table, pending tag and label table are inlined (builder.rs is not
among the provided sources; behaviour from spec §4.D).  `tags` maps a tag
to the list of instruction offsets carrying it; `pending_tag` implements
`Builder::tag`, which marks the next pushed instruction.  The data segment
is a character buffer (`data.bytes`). -/
structure Compiler where
  fn_context_stack : List FunctionContext
  mod_context_stack : List ModuleContext
  loop_ctx_stack : List LoopContext
  fn_uid_map : List (String × Nat)
  foreign_functions : List (Nat × ApiFunction)
  foreign_function_uids : List Nat
  uid_counter : Nat
  uid_memo : List (String × Nat)
  instrs : List Instr
  tags : List (Nat × List Nat)
  pending_tag : Option Nat
  labels : List (String × Nat)
  data_bytes : List Char

/-- `UIDGenerator::generate` (fresh anonymous tag; spec §4.A). -/
def generate_uid (st : Compiler) : Nat × Compiler :=
  (st.uid_counter, { st with uid_counter := st.uid_counter + 1 })

/-- `UIDGenerator::get_function_uid` (memoized per-name id; spec §4.A). -/
def get_function_uid_gen (st : Compiler) (name : String) : Nat × Compiler :=
  match lookup_assoc st.uid_memo name with
  | some uid => (uid, st)
  | none =>
    (st.uid_counter,
      { st with
          uid_counter := st.uid_counter + 1,
          uid_memo := (name, st.uid_counter) :: st.uid_memo })

/-- `Data::get_string_slice`: append the literal's bytes and return
(size, offset) (spec §4.C). -/
def get_string_slice (st : Compiler) (s : String) : (Nat × Nat) × Compiler :=
  ((s.length, st.data_bytes.length), { st with data_bytes := st.data_bytes ++ s.data })

/-- Record an offset under a tag in the builder's tag table. -/
def add_tag : List (Nat × List Nat) → Nat → Nat → List (Nat × List Nat)
  | [], t, idx => [(t, [idx])]
  | (k, l) :: rest, t, idx =>
    if k = t then (k, l ++ [idx]) :: rest else (k, l) :: add_tag rest t idx

/-- `Builder::push_instr`: append the instruction; if a tag is pending,
record the instruction's offset under it (spec §4.D). -/
def push_instr (st : Compiler) (i : Instr) : Compiler :=
  let tags :=
    match st.pending_tag with
    | none => st.tags
    | some t => add_tag st.tags t st.instrs.length
  { st with instrs := st.instrs ++ [i], tags := tags, pending_tag := none }

/-- `Builder::tag`: mark the next instruction to be pushed (spec §4.D). -/
def set_tag (st : Compiler) (t : Nat) : Compiler :=
  { st with pending_tag := some t }

/-- `Builder::get_tag`. -/
def get_tag (st : Compiler) (t : Nat) : Option (List Nat) :=
  lookup_assoc st.tags t

/-- `Builder::get_instr`. -/
def get_instr (st : Compiler) (idx : Nat) : Option Instr :=
  st.instrs.get? idx

/-- In-place instruction update (mutation through `get_instr`). -/
def set_instr (st : Compiler) (idx : Nat) (i : Instr) : Compiler :=
  { st with instrs := st.instrs.set idx i }

/-- `Builder::get_current_offset`. -/
def get_current_offset (st : Compiler) : Nat :=
  st.instrs.length

/-- The jump-target rewrite `instr.remove_operand_bytes(8);
instr.append_operand(pos)`: replace the trailing 8-byte operand (the
target) of a jump instruction. -/
def patch_jump_target (i : Instr) (target : Nat) : Instr :=
  match i with
  | .JMP _ => .JMP target
  | .JMPF c _ => .JMPF c target
  | .JMPT c _ => .JMPT c target
  | other => other

/-- `Compiler::get_current_function`. -/
def get_current_function (st : Compiler) : Outcome FunctionContext :=
  match st.fn_context_stack with
  | [] => .err .unknown
  | f :: _ => .ok f

/-- `Compiler::get_current_module`. -/
def get_current_module (st : Compiler) : Outcome ModuleContext :=
  match st.mod_context_stack with
  | [] => .err .unknown
  | m :: _ => .ok m

/-- `Compiler::get_root_module` (bottom of the module stack). -/
def get_root_module (st : Compiler) : Outcome ModuleContext :=
  match st.mod_context_stack.getLast? with
  | none => .err .unknown
  | some m => .ok m

/-- `Compiler::get_parent_function`: first non-weak context. -/
def get_parent_function (st : Compiler) : Outcome FunctionContext :=
  match st.fn_context_stack.find? (fun c => !c.weak) with
  | none => .err .unknown
  | some c => .ok c

/-- `Compiler::get_current_loop`. -/
def get_current_loop (st : Compiler) : Outcome LoopContext :=
  match st.loop_ctx_stack with
  | [] => .err .unknown
  | l :: _ => .ok l

/-- `Compiler::push_function_context`. -/
def push_function_context (st : Compiler) (f : FunctionContext) : Compiler :=
  { st with fn_context_stack := f :: st.fn_context_stack }

/-- `Compiler::pop_function_context`. -/
def pop_function_context (st : Compiler) : Outcome (FunctionContext × Compiler) :=
  match st.fn_context_stack with
  | [] => .err .unknown
  | f :: rest => .ok (f, { st with fn_context_stack := rest })

/-- `Compiler::push_loop_context`. -/
def push_loop_context (st : Compiler) (l : LoopContext) : Compiler :=
  { st with loop_ctx_stack := l :: st.loop_ctx_stack }

/-- `Compiler::pop_loop_context`. -/
def pop_loop_context (st : Compiler) : Outcome (LoopContext × Compiler) :=
  match st.loop_ctx_stack with
  | [] => .err .unknown
  | l :: rest => .ok (l, { st with loop_ctx_stack := rest })

/-- `Compiler::inc_stack` on the current function context. -/
def inc_stack (st : Compiler) (size : Nat) : Outcome Compiler :=
  match st.fn_context_stack with
  | [] => .err .unknown
  | f :: rest =>
    .ok { st with fn_context_stack := { f with stack_size := f.stack_size + size } :: rest }

/-- `Compiler::dec_stack` on the current function context.  Rust's usize
subtraction panics on underflow; the truncating `Nat` subtraction here is
only reached with amounts the same compilation run previously added. -/
def dec_stack (st : Compiler) (size : Nat) : Outcome Compiler :=
  match st.fn_context_stack with
  | [] => .err .unknown
  | f :: rest =>
    .ok { st with fn_context_stack := { f with stack_size := f.stack_size - size } :: rest }

/-- `Compiler::get_stack_size`. -/
def get_stack_size (st : Compiler) : Outcome Nat :=
  match st.fn_context_stack with
  | [] => .err .unknown
  | f :: _ => .ok f.stack_size

/-- `Compiler::is_function_foreign`. -/
def is_function_foreign (st : Compiler) (uid : Nat) : Bool :=
  st.foreign_function_uids.contains uid

/-- `FunctionContext::get_var_pos`: stack position of a variable recorded
in this context. -/
def FunctionContext.get_var_pos (f : FunctionContext) (name : String) : Outcome Int :=
  match lookup_assoc f.vars name with
  | some (_, pos) => .ok pos
  | none => .err (.unknown_variable name)

/-- `FunctionContext::get_var_type`. -/
def FunctionContext.get_var_type (f : FunctionContext) (name : String) : Outcome Ty :=
  match lookup_assoc f.vars name with
  | some (ty, _) => .ok ty
  | none => .err (.unknown_variable name)

/-- `FunctionContext::set_stack_var`: record a variable; duplicates are
rejected (spec §7 lists `DuplicateVariable`). -/
def FunctionContext.set_stack_var (f : FunctionContext) (name : String) (ty : Ty)
    (pos : Int) : Outcome FunctionContext :=
  match lookup_assoc f.vars name with
  | some _ => .err (.duplicate_variable name)
  | none => .ok { f with vars := (name, ty, pos) :: f.vars }

/-- `FunctionContext::get_ret_type`. -/
def FunctionContext.get_ret_type (f : FunctionContext) : Outcome Ty :=
  .ok f.ret_type

/-- `FunctionContext::new_weak`: a block scope.  Modelled from the spec
(§3 "weak (inherits parent's stack/vars)", §9 "inherit the parent's stack
position but maintain their own stack_size delta, collapsed by a SUBU_I at
block exit"): the child starts with stack delta 0 and inherits the
parent's variables, rebased so that `-(stack_size - stack_pos)` keeps
addressing the same slot from inside the block. -/
def FunctionContext.new_weak (parent : FunctionContext) : FunctionContext :=
  { stack_size := 0,
    vars := parent.vars.map (fun v => (v.1, v.2.1, v.2.2 - (parent.stack_size : Int))),
    reg_cursor := parent.reg_cursor,
    weak := true,
    is_loop := false,
    ret_type := parent.ret_type }

/-- `FunctionContext::new_loop`: like a weak block but flagged `is_loop`
so that break/continue unwinding stops here (spec §4.G "Break / continue"
and the §8 invariant summing "every enclosing weak block up to and
including the loop's function context"). -/
def FunctionContext.new_loop (parent : FunctionContext) : FunctionContext :=
  { FunctionContext.new_weak parent with is_loop := true }

/-- Register allocator (spec §4.B): `next_temp` hands out the register at
the cursor and advances. -/
def get_temp_register (f : FunctionContext) : Outcome (Reg × FunctionContext) :=
  .ok (.r f.reg_cursor, { f with reg_cursor := f.reg_cursor + 1 })

/-- Register allocator (spec §4.B): `last_temp` returns the most recently
handed-out register without advancing. -/
def get_last_temp_register (f : FunctionContext) : Outcome Reg :=
  match f.reg_cursor with
  | 0 => .err .register_mapping
  | n + 1 => .ok (.r n)

/-- Register allocator (spec §4.B): `force(reg)` sets the cursor so that
the next `last_temp` returns `reg` (used to expose R0 after a CALL). -/
def force_temp_register (f : FunctionContext) (reg : Reg) : FunctionContext :=
  match reg with
  | .r i => { f with reg_cursor := i + 1 }
  | .sp => f

/-- `Compiler::get_next_register` (next temporary of the current
context). -/
def get_next_register (st : Compiler) : Outcome (Reg × Compiler) :=
  match st.fn_context_stack with
  | [] => .err .unknown
  | f :: rest =>
    obind (get_temp_register f) fun fr =>
      .ok (fr.1, { st with fn_context_stack := fr.2 :: rest })

/-- `Compiler::get_last_register` (last temporary of the current
context). -/
def get_last_register (st : Compiler) : Outcome Reg :=
  match st.fn_context_stack with
  | [] => .err .unknown
  | f :: _ => get_last_temp_register f

/-- `Compiler::get_size_of_type`.  Containers (`Type::Other`) go through
`resolve_container`, which always returns `Unimplemented`; `Auto` and
`AutoArray` fall to the `UnknownType` arm. -/
def get_size_of_type : Ty → Outcome Nat
  | .string => .ok 16
  | .void => .ok 0
  | .int => .ok 8
  | .reference inner =>
    match inner with
    | .autoArray _ => .ok 16
    | _ => .ok 8
  | .float => .ok 4
  | .bool => .ok 4
  | .other _ => .err (.unimplemented "Container resolving not implemented yet!")
  | .array inner size =>
    obind (get_size_of_type inner) fun inner_size => .ok (inner_size * size)
  | ty => .err (.unknown_type ty)

/-- Variable lookup across the context stack, innermost first (the loop
in `Compiler::get_type_of_var`). -/
def var_type_in_ctxs : List FunctionContext → String → Option Ty
  | [], _ => none
  | f :: rest, name =>
    match lookup_assoc f.vars name with
    | some (ty, _) => some ty
    | none => var_type_in_ctxs rest name

/-- `Compiler::get_type_of_var`. -/
def get_type_of_var (st : Compiler) (name : String) : Outcome Ty :=
  match var_type_in_ctxs st.fn_context_stack name with
  | some ty => .ok ty
  | none => .err (.unknown_variable name)

/-- `Compiler::get_sp_offset_of_var`: `stack_size - stack_pos`, negated
when positive. -/
def get_sp_offset_of_var (st : Compiler) (name : String) : Outcome Int :=
  obind (get_current_function st) fun fn_ctx =>
  obind (fn_ctx.get_var_pos name) fun stack_pos =>
  let offset := (fn_ctx.stack_size : Int) - stack_pos
  if 0 < offset then .ok (-offset) else .ok offset

/-- True when the character sequence contains the path separator `::`
(Rust `name.contains("::")`). -/
def contains_path_sep : List Char → Bool
  | ':' :: ':' :: _ => true
  | _ :: rest => contains_path_sep rest
  | [] => false

/-- Splitting on `::` (Rust `name.split("::")`), accumulator version. -/
def split_path_aux : List Char → List Char → List (List Char)
  | ':' :: ':' :: rest, acc => acc.reverse :: split_path_aux rest []
  | c :: rest, acc => split_path_aux rest (c :: acc)
  | [], acc => [acc.reverse]

/-- Path fragments of a qualified name (Rust
`name.split("::").collect::<Vec<_>>()`). -/
def split_path (s : String) : List String :=
  (split_path_aux s.data []).map (fun l => String.mk l)

/-- `Compiler::push_module_context`. -/
def push_module_context (st : Compiler) (m : ModuleContext) : Compiler :=
  { st with mod_context_stack := m :: st.mod_context_stack }

/-- `Compiler::pop_module_context`. -/
def pop_module_context (st : Compiler) : Outcome (ModuleContext × Compiler) :=
  match st.mod_context_stack with
  | [] => .err .unknown
  | m :: rest => .ok (m, { st with mod_context_stack := rest })

/-- The descent loop of `resolve_function`: for each intermediate path
fragment the source first `unwrap`s the module option from the previous
step (a panic when it is `None`) and then looks the fragment up in the
nested-module table. -/
def resolve_walk : Option ModuleContext → List String → Outcome (Option ModuleContext)
  | opt, [] => .ok opt
  | opt, frag :: rest =>
    match opt with
    | none => .panic
    | some m => resolve_walk (lookup_assoc m.modules frag) rest

/-- Shared tail of the qualified branch of `resolve_function`: walk the
intermediate fragments `mids`, unwrap the final module option (a panic
when the walk lost the module) and look up the last fragment in its
function table. -/
def resolve_qualified_from (st : Compiler) (name : String) (mids : List String)
    (frags : List String) (start_mod : ModuleContext) : Outcome FunctionDef :=
  obind (resolve_walk (some start_mod) mids) fun opt =>
  match frags.getLast? with
  | none => .panic
  | some last_path =>
    match opt with
    | none => .panic
    | some m =>
      match lookup_assoc m.functions last_path with
      | some fd => .ok fd
      | none => .err (.unknown_function name)

/-- The qualified branch of `resolve_function` (the name contains `::`):
pick the start module (`root` or the current one; `super` is
unimplemented; the dropped fragments reproduce `start_i`), then descend
via `resolve_qualified_from`. -/
def resolve_qualified (st : Compiler) (name : String) (frags : List String) :
    Outcome FunctionDef :=
  match frags with
  | [] => .panic
  | first :: _ =>
    if first = "root" then
      obind (get_root_module st) fun start_mod =>
      resolve_qualified_from st name ((frags.drop 1).dropLast) frags start_mod
    else if first = "super" then
      .err (.unimplemented "Blub")
    else
      obind (get_current_module st) fun start_mod =>
      resolve_qualified_from st name frags.dropLast frags start_mod

/-- `Compiler::resolve_function`, fuelled.  The unqualified branch
re-resolves an import's stored path; on cyclic import aliases the Rust
source recurses forever, which running out of fuel models as `panic`
(no result).  Acyclic programs never exhaust the fuel chosen in
`resolve_function`. -/
def resolve_function_fuel (st : Compiler) : Nat → String → Outcome FunctionDef
  | 0, _ => .panic
  | fuel + 1, name =>
    if contains_path_sep name.data then
      resolve_qualified st name (split_path name)
    else
      obind (get_current_module st) fun mod_ctx =>
      match lookup_assoc mod_ctx.functions name with
      | some fd => .ok fd
      | none =>
        match lookup_assoc mod_ctx.imports name with
        | some import_path => resolve_function_fuel st fuel import_path
        | none => .err (.unknown_function name)

/-- Fuel bound for import re-resolution: one more than the number of
alias entries in scope (an acyclic alias chain can never be longer). -/
def import_fuel (st : Compiler) : Nat :=
  (st.mod_context_stack.map (fun m => m.imports.length)).sum + 1

/-- `Compiler::resolve_function`. -/
def resolve_function (st : Compiler) (name : String) : Outcome FunctionDef :=
  resolve_function_fuel st (import_fuel st) name

/-- `Compiler::check_expr_type` (compiler.rs): the type of an expression.
Arms with identical bodies in the source (the agree-then-operand-type
family and the agree-then-Bool family) are grouped into alternative
patterns. -/
def check_expr_type (st : Compiler) : Expression → Outcome Ty
  | .intLiteral _ => .ok .int
  | .floatLiteral _ => .ok .float
  | .boolLiteral _ => .ok .bool
  | .stringLiteral _ => .ok .string
  | .variable var_name => get_type_of_var st var_name
  | .assign lhs rhs | .addition lhs rhs | .subtraction lhs rhs
  | .multiplication lhs rhs | .division lhs rhs =>
    obind (check_expr_type st lhs) fun lhs_type =>
    obind (check_expr_type st rhs) fun rhs_type =>
    if lhs_type ≠ rhs_type then .err (.type_mismatch lhs_type rhs_type)
    else .ok lhs_type
  | .lessThan lhs rhs | .greaterThan lhs rhs | .lessThanEquals lhs rhs
  | .greaterThanEquals lhs rhs | .equals lhs rhs | .notEquals lhs rhs
  | .and lhs rhs | .or lhs rhs =>
    obind (check_expr_type st lhs) fun lhs_type =>
    obind (check_expr_type st rhs) fun rhs_type =>
    if lhs_type ≠ rhs_type then .err (.type_mismatch lhs_type rhs_type)
    else .ok .bool
  | .not op =>
    obind (check_expr_type st op) fun op_type =>
    if Ty.bool ≠ op_type then .err (.type_mismatch .bool op_type)
    else .ok .bool
  | e => .err (.unsupported_expression e)

/-- Errors of the standalone checker (`CheckerError` in checker.rs);
its `TypeMismatch` carries no payload. -/
inductive CheckerError where
  | unknown
  | typeMismatch
deriving DecidableEq

/-- `Checker::check_expr_type` (checker.rs).  The checker holds a
reference to a compiler and consults only its `type_of_var`; that lookup
is abstracted as a function argument.  The Expression type of that crate
revision has no call, logical or assignment constructors; those arms of
the shared AST are mapped to `CheckerError::Unknown`.  Note that every
comparison arm returns `lhs_type`, the operand type. -/
def checker_check_expr_type (type_of_var : String → Option Ty) :
    Expression → Except CheckerError Ty
  | .intLiteral _ => .ok .int
  | .floatLiteral _ => .ok .float
  | .stringLiteral _ => .ok .string
  | .boolLiteral _ => .ok .bool
  | .variable name =>
    match type_of_var name with
    | some ty => .ok ty
    | none => .error .typeMismatch
  | .addition lhs rhs | .multiplication lhs rhs | .subtraction lhs rhs
  | .division lhs rhs | .equals lhs rhs | .notEquals lhs rhs
  | .greaterThan lhs rhs | .lessThan lhs rhs | .greaterThanEquals lhs rhs
  | .lessThanEquals lhs rhs =>
    match checker_check_expr_type type_of_var lhs with
    | .error e => .error e
    | .ok lhs_type =>
      match checker_check_expr_type type_of_var rhs with
      | .error e => .error e
      | .ok rhs_type =>
        if lhs_type ≠ rhs_type then .error .typeMismatch
        else .ok lhs_type
  | .not e => checker_check_expr_type type_of_var e
  | _ => .error .unknown

/-- The function-offset section of `Compiler::get_program` (compiler.rs
lines 157-167): walk `fn_uid_map`, skip foreign uids, and record
`uid → label_offset + data_len` for the rest.  The source iterates a
HashMap in unspecified order; the recursion order here is immaterial to
the resulting lookups. -/
def get_program_functions (fn_uid_map : List (String × Nat)) (foreign_uids : List Nat)
    (labels : List (String × Nat)) (data_len : Nat) : Outcome (List (Nat × Nat)) :=
  match fn_uid_map with
  | [] => .ok []
  | (fn_name, fn_uid) :: rest =>
    obind (get_program_functions rest foreign_uids labels data_len) fun functions =>
    if foreign_uids.contains fn_uid then .ok functions
    else
      match lookup_assoc labels fn_name with
      | none => .err .unknown
      | some fn_offset => .ok ((fn_uid, fn_offset + data_len) :: functions)

/-- The function-offset table `get_program` would produce from the
current compiler state. -/
def get_program_functions_of (st : Compiler) : Outcome (List (Nat × Nat)) :=
  get_program_functions st.fn_uid_map st.foreign_function_uids st.labels
    st.data_bytes.length

/-- The argument-layout loop of `register_foreign_function`: the source
iterates `arg_types` in reverse with a running `arg_offset_sum`, storing
`arg_sizes[i]` and `arg_offsets[i]` at descending indices.  This
recursion processes the later arguments (the recursive call) first,
mirroring that order; the returned `Int` is the final running sum.
For zero arguments the source's `arg_sizes.len() - 1` underflows (a
release-mode wrap); the loop body never runs, which the base case
models. -/
def foreign_arg_loop : List Ty → Outcome (List Nat × List Int × Int)
  | [] => .ok ([], [], 0)
  | t :: rest =>
    obind (foreign_arg_loop rest) fun data =>
    obind (get_size_of_type t) fun arg_size =>
    .ok (arg_size :: data.1, (data.2.2 - (arg_size : Int)) :: data.2.1,
      data.2.2 - (arg_size : Int))

/-- `Compiler::register_foreign_function`: allocate the uid, compute the
argument sizes and offsets, store the descriptor in the foreign tables
and a `FunctionDef` in the current module context. -/
def register_foreign_function (st : Compiler) (function : ApiFunction)
    (path : String) : Outcome Compiler :=
  let full_fn_name := path ++ function.name
  let gen := get_function_uid_gen st full_fn_name
  let fn_uid := gen.1
  let st1 := gen.2
  obind (foreign_arg_loop function.arg_types) fun data =>
  let function1 := { function with arg_sizes := data.1, arg_offsets := data.2.1 }
  let st2 := { st1 with
      fn_uid_map := (full_fn_name, fn_uid) :: st1.fn_uid_map,
      foreign_function_uids := fn_uid :: st1.foreign_function_uids,
      foreign_functions := (fn_uid, function1) :: st1.foreign_functions }
  let fn_args := function.arg_types.map (fun t => ("", t))
  let fn_def : FunctionDef :=
    { name := function.name, arguments := fn_args,
      ret_type := function.return_type, uid := fn_uid }
  match st2.mod_context_stack with
  | [] => .err .unknown
  | m :: rest =>
    obind (m.add_function fn_def) fun m1 =>
    .ok { st2 with mod_context_stack := m1 :: rest }

/-- The function fold inside `register_foreign_module`. -/
def register_foreign_fn_list :
    Compiler → List (String × ApiFunction) → String → Outcome Compiler
  | st, [], _ => .ok st
  | st, (_, f) :: rest, path =>
    obind (register_foreign_function st f path) fun st1 =>
    register_foreign_fn_list st1 rest path

mutual

/-- `Compiler::register_foreign_module`: extend the path, push a fresh
module context, register the functions and nested modules into it, pop it
and attach it to the enclosing context. -/
def register_foreign_module (st : Compiler) (module : ApiModule) (path : String) :
    Outcome Compiler :=
  match module with
  | .mk mod_name mod_functions mod_modules =>
    let path1 := path ++ mod_name ++ "::"
    let st1 := push_module_context st (ModuleContext.new mod_name)
    obind (register_foreign_fn_list st1 mod_functions path1) fun st2 =>
    obind (register_foreign_mod_list st2 mod_modules path1) fun st3 =>
    obind (pop_module_context st3) fun popped =>
    match popped.2.mod_context_stack with
    | [] => .err .unknown
    | m :: rest =>
      obind (m.add_module popped.1) fun m1 =>
      .ok { popped.2 with mod_context_stack := m1 :: rest }
termination_by sizeOf module
decreasing_by all_goals (simp_wf; try omega)

/-- The nested-module fold inside `register_foreign_module`. -/
def register_foreign_mod_list :
    Compiler → List (String × ApiModule) → String → Outcome Compiler
  | st, [], _ => .ok st
  | st, (_, m) :: rest, path =>
    obind (register_foreign_module st m path) fun st1 =>
    register_foreign_mod_list st1 rest path
termination_by _ l _ => sizeOf l
decreasing_by all_goals (simp_wf; try omega)

end

/-- `Compiler::register_foreign_root_module`. -/
def register_foreign_root_module (st : Compiler) (module : ApiModule) :
    Outcome Compiler :=
  register_foreign_module st module "root::"

/-- Quote stripping of a string literal
(`String::from(&string[1..string.len() - 1])`). -/
def strip_quotes (s : String) : String :=
  String.mk ((s.data.drop 1).dropLast)

/-- `Compiler::compile_var_expr`: load a variable by type.  Register-sized
types move `[SP+offset]` into a fresh temporary; a fat reference
(`Reference(AutoArray)`) grows the stack by 16 and copies the pair with
`MOVN_A` (the source re-reads the SP offset after growing). -/
def compile_var_expr (st : Compiler) (expr : Expression) : Outcome (Unit × Compiler) :=
  match expr with
  | .variable var_name =>
    obind (get_type_of_var st var_name) fun var_type =>
    obind (get_sp_offset_of_var st var_name) fun var_offset =>
    match var_type with
    | .int =>
      obind (get_next_register st) fun r =>
      .ok ((), push_instr r.2 (.MOVI_AR .sp var_offset r.1))
    | .float =>
      obind (get_next_register st) fun r =>
      .ok ((), push_instr r.2 (.MOVF_AR .sp var_offset r.1))
    | .bool =>
      obind (get_next_register st) fun r =>
      .ok ((), push_instr r.2 (.MOVB_AR .sp var_offset r.1))
    | .reference inner =>
      match inner with
      | .autoArray _ =>
        obind (inc_stack st 16) fun st1 =>
        obind (get_sp_offset_of_var st1 var_name) fun var_offset2 =>
        let st2 := push_instr st1 (new_inc_stack 16)
        .ok ((), push_instr st2 (.MOVN_A .sp var_offset2 .sp (-16) 16))
      | _ =>
        obind (get_next_register st) fun r =>
        .ok ((), push_instr r.2 (.MOVA_AR .sp var_offset r.1))
    | .other _ => .err (.unimplemented "Containers not implemented yet!")
    | _ => .err (.unknown_type var_type)
  | _ => .err .unknown

mutual

/-- `Compiler::compile_expr`.  The ten structurally identical binary
arithmetic/comparison arms dispatch through `compile_bin_op` with the
per-type opcodes of the corresponding source arm. -/
def compile_expr (expr : Expression) (st : Compiler) : Outcome (Unit × Compiler) :=
  match expr with
  | .intLiteral int =>
    obind (get_next_register st) fun r =>
    .ok ((), push_instr r.2 (.LDI int r.1))
  | .floatLiteral float =>
    obind (get_next_register st) fun r =>
    .ok ((), push_instr r.2 (.LDF float r.1))
  | .boolLiteral boolean =>
    obind (get_next_register st) fun r =>
    .ok ((), push_instr r.2 (.LDB boolean r.1))
  | .stringLiteral string =>
    let slice := get_string_slice st (strip_quotes string)
    obind (inc_stack slice.2 16) fun st1 =>
    obind (get_next_register st1) fun size_reg =>
    obind (get_next_register size_reg.2) fun addr_reg =>
    let st2 := push_instr addr_reg.2 (new_inc_stack 16)
    let st3 := push_instr st2 (.LDA slice.1.1 size_reg.1)
    let st4 := push_instr st3 (.LDA slice.1.2 addr_reg.1)
    let st5 := push_instr st4 (.MOVA_RA size_reg.1 .sp (-16))
    .ok ((), push_instr st5 (.MOVA_RA addr_reg.1 .sp (-8)))
  | .variable _ => compile_var_expr st expr
  | .call fn_name fn_args =>
    obind (compile_call_expr (.call fn_name fn_args) st) fun r =>
    match r.2.fn_context_stack with
    | [] => .err .unknown
    | f :: rest =>
      .ok ((), { r.2 with fn_context_stack := force_temp_register f (.r 0) :: rest })
  | .addition lhs rhs => compile_bin_op Instr.ADDI Instr.ADDF lhs rhs st
  | .subtraction lhs rhs => compile_bin_op Instr.SUBI Instr.SUBF lhs rhs st
  | .multiplication lhs rhs => compile_bin_op Instr.MULI Instr.MULF lhs rhs st
  | .division lhs rhs => compile_bin_op Instr.DIVI Instr.DIVF lhs rhs st
  | .lessThan lhs rhs => compile_bin_op Instr.LTI Instr.LTF lhs rhs st
  | .greaterThan lhs rhs => compile_bin_op Instr.GTI Instr.GTF lhs rhs st
  | .lessThanEquals lhs rhs => compile_bin_op Instr.LTEQI Instr.LTEQF lhs rhs st
  | .greaterThanEquals lhs rhs => compile_bin_op Instr.GTEQI Instr.GTEQF lhs rhs st
  | .equals lhs rhs => compile_bin_op Instr.EQI Instr.EQF lhs rhs st
  | .notEquals lhs rhs => compile_bin_op Instr.NEQI Instr.NEQF lhs rhs st
  | .not op =>
    obind (compile_expr op st) fun r =>
    obind (get_last_register r.2) fun op_reg =>
    obind (get_next_register r.2) fun target =>
    .ok ((), push_instr target.2 (.NOT op_reg target.1))
  | .and lhs rhs =>
    obind (compile_expr lhs st) fun r1 =>
    obind (get_last_register r1.2) fun lhs_reg =>
    obind (compile_expr rhs r1.2) fun r2 =>
    obind (get_last_register r2.2) fun rhs_reg =>
    obind (get_next_register r2.2) fun target =>
    .ok ((), push_instr target.2 (.AND lhs_reg rhs_reg target.1))
  | .or lhs rhs =>
    obind (compile_expr lhs st) fun r1 =>
    obind (get_last_register r1.2) fun lhs_reg =>
    obind (compile_expr rhs r1.2) fun r2 =>
    obind (get_last_register r2.2) fun rhs_reg =>
    obind (get_next_register r2.2) fun target =>
    .ok ((), push_instr target.2 (.OR lhs_reg rhs_reg target.1))
  | e => .err (.unsupported_expression e)
termination_by (sizeOf expr, 2)
decreasing_by all_goals (simp_wf; first
  | (apply Prod.Lex.left; omega)
  | (apply Prod.Lex.right; omega))

/-- The shared shape of the source's binary arithmetic and comparison
arms (Addition .. NotEquals): check the left operand's type, compile both
operands, then dispatch on Int/Float to the per-type opcode; any other
operand type is an `UnsupportedExpression(lhs)` error. -/
def compile_bin_op (op_i op_f : Reg → Reg → Reg → Instr) (lhs rhs : Expression)
    (st : Compiler) : Outcome (Unit × Compiler) :=
  obind (check_expr_type st lhs) fun expr_type =>
  obind (compile_expr lhs st) fun r1 =>
  obind (get_last_register r1.2) fun lhs_reg =>
  obind (compile_expr rhs r1.2) fun r2 =>
  obind (get_last_register r2.2) fun rhs_reg =>
  match expr_type with
  | .int =>
    obind (get_next_register r2.2) fun res =>
    .ok ((), push_instr res.2 (op_i lhs_reg rhs_reg res.1))
  | .float =>
    obind (get_next_register r2.2) fun res =>
    .ok ((), push_instr res.2 (op_f lhs_reg rhs_reg res.1))
  | _ => .err (.unsupported_expression lhs)
termination_by (1 + sizeOf lhs + sizeOf rhs, 1)
decreasing_by all_goals (simp_wf; first
  | (apply Prod.Lex.left; omega)
  | (apply Prod.Lex.right; omega))

/-- `Compiler::compile_call_expr`: resolve the function, type-check and
push the arguments, emit `CALL`, account for the return size, then emit
the return-value relocation and the stack shrink.  Note that the local
`stack_size` used for the final `stack_diff` is the one refreshed at the
end of the last loop iteration (`compile_call_args` returns it). -/
def compile_call_expr (expr : Expression) (st : Compiler) : Outcome (Unit × Compiler) :=
  match expr with
  | .call fn_name fn_arg_exprs =>
    obind (resolve_function st fn_name) fun fn_def =>
    obind (get_size_of_type fn_def.ret_type) fun fn_ret_size =>
    if fn_arg_exprs.length ≠ fn_def.arguments.length then
      .err (.unknown_function fn_name)
    else
      obind (get_stack_size st) fun stack_size0 =>
      obind (compile_call_args fn_arg_exprs fn_def.arguments stack_size0 st) fun res =>
      let stack_size := res.1
      let st1 := push_instr res.2 (.CALL fn_def.uid)
      obind (inc_stack st1 fn_ret_size) fun st2 =>
      obind (get_stack_size st2) fun cur =>
      let stack_diff := cur - stack_size
      let pop_size := stack_diff - fn_ret_size
      obind (dec_stack st2 pop_size) fun st3 =>
      let st4 := push_instr st3
        (.MOVN_A .sp (-(fn_ret_size : Int)) .sp (-(stack_diff : Int)) fn_ret_size)
      .ok ((), push_instr st4 (new_dec_stack pop_size))
  | _ => .err .unknown
termination_by (sizeOf expr, 1)
decreasing_by all_goals (simp_wf; first
  | (apply Prod.Lex.left; omega)
  | (apply Prod.Lex.right; omega))

/-- The argument loop of `compile_call_expr`.  `stack_size` is the
running local of the source (refreshed at the end of every iteration);
the final value is returned.  The source indexes `fn_def.arguments[i]`
after checking the lengths agree, so the type-list running short is
unreachable (modelled as a panic, matching an out-of-bounds index). -/
def compile_call_args : List Expression → List (String × Ty) → Nat → Compiler →
    Outcome (Nat × Compiler)
  | [], _, stack_size, st => .ok (stack_size, st)
  | _ :: _, [], _, _ => .panic
  | arg :: args_rest, (_, fn_arg_type) :: tys_rest, stack_size, st =>
      obind (check_expr_type st arg) fun expr_type =>
      if fn_arg_type ≠ expr_type then .err (.type_mismatch fn_arg_type expr_type)
      else
        obind (compile_expr arg st) fun r1 =>
        obind (get_stack_size r1.2) fun curr_stack_size =>
        let stack_diff := curr_stack_size - stack_size
        obind (get_size_of_type expr_type) fun size =>
        obind
          (if 8 < size ∧ 0 < stack_diff then
            let sta := push_instr r1.2
              (.MOVN_A .sp (-(size : Int)) .sp (-(stack_diff : Int)) size)
            let stb := push_instr sta (new_dec_stack stack_diff)
            dec_stack stb stack_diff
          else .ok r1.2) fun st2 =>
        obind (get_last_register st2) fun last_reg =>
        let st3 := push_instr st2 (new_inc_stack size)
        obind (inc_stack st3 size) fun st4 =>
        obind
          (match expr_type with
            | .int => .ok (some (Instr.MOVI_RA last_reg .sp (-(size : Int))))
            | .float => .ok (some (Instr.MOVI_RA last_reg .sp (-(size : Int))))
            | .bool => .ok (some (Instr.MOVI_RA last_reg .sp (-(size : Int))))
            | .string => .ok none
            | _ => .err (.unknown_type expr_type)) fun mov_instr_opt =>
        let st5 :=
          match mov_instr_opt with
          | some i => push_instr st4 i
          | none => st4
        obind (get_stack_size st5) fun new_stack_size =>
        compile_call_args args_rest tys_rest new_stack_size st5
termination_by args _ _ _ => (sizeOf args, 0)
decreasing_by all_goals (simp_wf; first
  | (apply Prod.Lex.left; omega)
  | (apply Prod.Lex.right; omega))

end

/-- The accumulating loop of `compile_stack_loop`: sum the stack sizes of
the contexts from the innermost outward, stopping after the first context
flagged `is_loop`. -/
def stack_loop_go : List FunctionContext → Nat → Nat
  | [], pop_size => pop_size
  | c :: rest, pop_size =>
    let pop_size1 := pop_size + c.stack_size
    if c.is_loop then pop_size1 else stack_loop_go rest pop_size1

/-- `Compiler::compile_stack_loop`: emit the single `SUBU_I` unwinding
all block locals down to (and including) the innermost loop context. -/
def compile_stack_loop (st : Compiler) : Outcome Compiler :=
  let pop_size := stack_loop_go st.fn_context_stack 0
  .ok (push_instr st (new_dec_stack pop_size))

/-- `Compiler::compile_stack_cleanup_block`: pop a block context's bytes
(`SUBU_I SP, stack_size, SP`). -/
def compile_stack_cleanup_block (st : Compiler) (fn_ctx : FunctionContext) :
    Outcome Compiler :=
  .ok (push_instr st (.SUBU_I .sp fn_ctx.stack_size .sp))

/-- The scan at the top of `compile_stack_cleanup_return`: the first
non-weak context together with the accumulated stack sizes of every
context up to and including it. -/
def cleanup_parent_scan : List FunctionContext → Option (FunctionContext × Nat)
  | [] => none
  | c :: rest =>
    if c.weak then
      match cleanup_parent_scan rest with
      | none => none
      | some pr => some (pr.1, c.stack_size + pr.2)
    else some (c, c.stack_size)

/-- `Compiler::compile_stack_cleanup_return`: optionally relocate a
stack-resident return value down to the caller-visible slot, then
collapse the whole function stack with one `SUBU_I`. -/
def compile_stack_cleanup_return (st : Compiler) : Outcome Compiler :=
  match cleanup_parent_scan st.fn_context_stack with
  | none => .err .unknown
  | some pr =>
    obind pr.1.get_ret_type fun ret_type =>
    obind (get_size_of_type ret_type) fun ret_size =>
    let stack_size := pr.2
    let stack_begin_offset : Int := -(stack_size : Int)
    let step : Compiler × Nat :=
      match ret_type with
      | .bool => (st, stack_size)
      | .int => (st, stack_size)
      | .reference inner =>
        match inner with
        | .autoArray _ =>
          (push_instr st (.MOVN_A .sp (-16) .sp stack_begin_offset 16),
            stack_size - 16)
        | _ => (st, stack_size)
      | .float => (st, stack_size)
      | .void => (st, stack_size)
      | _ =>
        (push_instr st (.MOVN_A .sp (-(ret_size : Int)) .sp stack_begin_offset ret_size),
          stack_size - ret_size)
    .ok (push_instr step.1 (.SUBU_I .sp step.2 .sp))

/-- `Compiler::compile_break_stmt`: the stack unwind, then a `JMP` to the
current loop's end tag (the jump is tagged for later patching). -/
def compile_break_stmt (stmt : Statement) (st : Compiler) : Outcome (Unit × Compiler) :=
  match stmt with
  | .brk =>
    obind (compile_stack_loop st) fun st1 =>
    obind (get_current_loop st1) fun loop_ctx =>
    let st2 := set_tag st1 loop_ctx.tag_end
    .ok ((), push_instr st2 (.JMP loop_ctx.tag_end))
  | _ => .err .unknown

/-- `Compiler::compile_continue_stmt`: the stack unwind, then an untagged
`JMP` back to the loop start. -/
def compile_continue_stmt (stmt : Statement) (st : Compiler) : Outcome (Unit × Compiler) :=
  match stmt with
  | .cont =>
    obind (compile_stack_loop st) fun st1 =>
    obind (get_current_loop st1) fun loop_ctx =>
    .ok ((), push_instr st1 (.JMP loop_ctx.pos_start))
  | _ => .err .unknown

/-- `Compiler::compile_return_stmt`: type-check the returned expression
against the nearest non-weak context's return type, compile it, move a
register-sized result into R0 (register 0), emit the stack cleanup and
`RET`. -/
def compile_return_stmt (stmt : Statement) (st : Compiler) : Outcome (Unit × Compiler) :=
  match stmt with
  | .ret return_expr_opt =>
    obind
      (match return_expr_opt with
        | some e => check_expr_type st e
        | none => .ok .void) fun return_expr_type =>
    obind (get_parent_function st) fun parent =>
    obind parent.get_ret_type fun fn_ret_type =>
    if fn_ret_type ≠ return_expr_type then
      .err (.type_mismatch fn_ret_type return_expr_type)
    else
      obind
        (match return_expr_opt with
          | none => .ok ((), st)
          | some return_expr =>
            obind (compile_expr return_expr st) fun r =>
            match fn_ret_type with
            | .int =>
              obind (get_last_register r.2) fun last_reg =>
              .ok ((), push_instr r.2 (.MOVI last_reg (.r 0)))
            | .float =>
              obind (get_last_register r.2) fun last_reg =>
              .ok ((), push_instr r.2 (.MOVF last_reg (.r 0)))
            | .bool =>
              obind (get_last_register r.2) fun last_reg =>
              .ok ((), push_instr r.2 (.MOVB last_reg (.r 0)))
            | .reference inner =>
              match inner with
              | .autoArray _ => .ok ((), r.2)
              | _ =>
                obind (get_last_register r.2) fun last_reg =>
                .ok ((), push_instr r.2 (.MOVA last_reg (.r 0)))
            | _ => .ok ((), r.2)) fun r2 =>
      obind (compile_stack_cleanup_return r2.2) fun st3 =>
      .ok ((), push_instr st3 .RET)
  | _ => .err .unknown

/-- The desugaring match at the top of `compile_var_assign_stmt_expr`:
the (lhs, rhs) pair actually compiled.  Note that every compound
assignment arm of the source builds the replacement right-hand side with
the `Addition` constructor. -/
def assign_desugar (assign_expr : Expression) : Outcome (Expression × Expression) :=
  match assign_expr with
  | .assign lhs rhs => .ok (lhs, rhs)
  | .addAssign lhs rhs => .ok (lhs, .addition lhs rhs)
  | .subAssign lhs rhs => .ok (lhs, .addition lhs rhs)
  | .divAssign lhs rhs => .ok (lhs, .addition lhs rhs)
  | .mulAssign lhs rhs => .ok (lhs, .addition lhs rhs)
  | _ => .err .unknown

/-- `Compiler::compile_lhs_assign_expr`: compute the address of the
assignment target (`SP - |offset|`) into a fresh temporary; only plain
variables are supported. -/
def compile_lhs_assign_expr (st : Compiler) (expr : Expression) :
    Outcome (Ty × Compiler) :=
  match expr with
  | .variable var_name =>
    obind (get_sp_offset_of_var st var_name) fun off =>
    let stack_offset := off.natAbs
    obind (get_next_register st) fun r =>
    let st1 := push_instr r.2 (.SUBU_I .sp stack_offset r.1)
    obind (get_type_of_var st1 var_name) fun ty =>
    .ok (ty, st1)
  | _ => .err (.unsupported_expression expr)

/-- `Compiler::compile_var_assign_stmt_expr`: compile the target address,
save it on the stack (growing `stack_size` by 8), compile the (desugared)
right-hand side, reload the pointer and store through it with the
width-appropriate move.  The 8 bytes of the saved pointer are never
popped. -/
def compile_var_assign_stmt_expr (assign_expr : Expression) (st : Compiler) :
    Outcome (Unit × Compiler) :=
  obind (assign_desugar assign_expr) fun lr =>
  obind (compile_lhs_assign_expr st lr.1) fun tr =>
  let lhs_expr_type := tr.1
  obind (get_last_register tr.2) fun lhs_reg =>
  let st1 := push_instr tr.2 (new_inc_stack 8)
  let st2 := push_instr st1 (.MOVA_RA lhs_reg .sp (-8))
  obind (get_stack_size st2) fun lhs_ptr_pos =>
  obind (inc_stack st2 8) fun st3 =>
  obind (check_expr_type st3 lr.2) fun rhs_expr_type =>
  if lhs_expr_type ≠ rhs_expr_type then
    .err (.type_mismatch lhs_expr_type rhs_expr_type)
  else
    obind (compile_expr lr.2 st3) fun r =>
    obind (get_last_register r.2) fun rhs_reg =>
    obind (get_next_register r.2) fun lr2 =>
    obind (get_stack_size lr2.2) fun curr_stack_size =>
    let stack_offset : Int := -((curr_stack_size - lhs_ptr_pos : Nat) : Int)
    let st4 := push_instr lr2.2 (.MOVA_AR .sp stack_offset lr2.1)
    obind
      (match rhs_expr_type with
        | .int => .ok (Instr.MOVI_RA rhs_reg lr2.1 0)
        | .float => .ok (Instr.MOVF_RA rhs_reg lr2.1 0)
        | .bool => .ok (Instr.MOVB_RA rhs_reg lr2.1 0)
        | .reference inner =>
          match inner with
          | .autoArray _ => .ok (Instr.MOVN_A .sp (-16) lr2.1 0 16)
          | _ => .ok (Instr.MOVA_RA rhs_reg lr2.1 0)
        | _ =>
          obind (get_size_of_type rhs_expr_type) fun size =>
          .ok (Instr.MOVN_A .sp (-(size : Int)) lr2.1 0 size)) fun assign_instr =>
    .ok ((), push_instr st4 assign_instr)

/-- `Compiler::compile_var_decl_stmt`: type-check the initializer,
resolve `Auto`, compile the initializer, and for register-sized types
grow the stack and store the result register at `[SP-size]`; larger
values are already on the stack.  The variable is then recorded at
position `stack_size - size`. -/
def compile_var_decl_stmt (stmt : Statement) (st : Compiler) : Outcome (Unit × Compiler) :=
  match stmt with
  | .variableDecl var_name decl_type assignment_expr =>
    obind (check_expr_type st assignment_expr) fun assignment_expr_type =>
    let var_type := if decl_type = Ty.auto then assignment_expr_type else decl_type
    obind (get_size_of_type var_type) fun var_size =>
    obind (compile_expr assignment_expr st) fun r =>
    obind
      (if var_size ≤ 8 then
        obind (get_last_register r.2) fun last_reg =>
        let var_sp_offset : Int := -(var_size : Int)
        obind (inc_stack r.2 var_size) fun st1 =>
        obind
          (match var_type with
            | .int => .ok (Instr.MOVI_RA last_reg .sp var_sp_offset)
            | .float => .ok (Instr.MOVF_RA last_reg .sp var_sp_offset)
            | .reference _ => .ok (Instr.MOVA_RA last_reg .sp var_sp_offset)
            | .bool => .ok (Instr.MOVB_RA last_reg .sp var_sp_offset)
            | _ => .err (.unknown_type var_type)) fun mov_instr =>
        let st2 := push_instr st1 (new_inc_stack var_size)
        .ok (push_instr st2 mov_instr)
      else .ok r.2) fun st3 =>
    match st3.fn_context_stack with
    | [] => .err .unknown
    | f :: rest =>
      obind (f.set_stack_var var_name var_type ((f.stack_size - var_size : Nat) : Int))
        fun f1 =>
      .ok ((), { st3 with fn_context_stack := f1 :: rest })
  | _ => .err .unknown

/-- `Compiler::compile_expr_stmt`: calls compile through `compile_expr`,
the assignment family through `compile_var_assign_stmt_expr`; anything
else is unsupported. -/
def compile_expr_stmt (stmt : Statement) (st : Compiler) : Outcome (Unit × Compiler) :=
  match stmt with
  | .expression stmt_expr =>
    match stmt_expr with
    | .call _ _ => compile_expr stmt_expr st
    | .assign _ _ | .addAssign _ _ | .subAssign _ _ | .mulAssign _ _
    | .divAssign _ _ => compile_var_assign_stmt_expr stmt_expr st
    | _ => .err (.unsupported_expression stmt_expr)
  | _ => .err .unknown

/-- Patch the single jump recorded under a tag to the current offset
(the repeated block in `compile_if_stmt`: `get_tag`, take entry 0,
`get_instr`, rewrite the 8-byte operand). -/
def patch_tag_to_current (st : Compiler) (t : Nat) : Outcome Compiler :=
  let pos := get_current_offset st
  match get_tag st t with
  | none => .err .unknown
  | some pos_list =>
    match pos_list.head? with
    | none => .err .unknown
    | some jmp_pos =>
      match get_instr st jmp_pos with
      | none => .err .unknown
      | some instr => .ok (set_instr st jmp_pos (patch_jump_target instr pos))

/-- Patch every instruction in a recorded offset list to a target. -/
def patch_instr_list (st : Compiler) (pos_list : List Nat) (target : Nat) :
    Outcome Compiler :=
  match pos_list with
  | [] => .ok st
  | p :: rest =>
    match get_instr st p with
    | none => .err .unknown
    | some instr =>
      patch_instr_list (set_instr st p (patch_jump_target instr target)) rest target

/-- Patch every jump recorded under a tag (the end-of-chain loops of
`compile_if_stmt` and `compile_while_stmt`). -/
def patch_all_tag (st : Compiler) (t : Nat) (target : Nat) : Outcome Compiler :=
  match get_tag st t with
  | none => .err .unknown
  | some pos_list => patch_instr_list st pos_list target

mutual

/-- `Compiler::compile_stmt`.  The source's `If` and `While` handlers
take the statement and re-match; here their payloads are passed
destructured (the flattened `IfStatementArgs`).  Statement variants not
listed in the source match arms do not exist in this model, so the
source's final `Unimplemented` arm has no counterpart. -/
def compile_stmt (stmt : Statement) (st : Compiler) : Outcome (Unit × Compiler) :=
  match stmt with
  | .variableDecl n t e => compile_var_decl_stmt (.variableDecl n t e) st
  | .expression e => compile_expr_stmt (.expression e) st
  | .ret e => compile_return_stmt (.ret e) st
  | .ifStmt c b ei el => compile_if_stmt c b ei el st
  | .whileStmt c b => compile_while_stmt c b st
  | .cont => compile_continue_stmt .cont st
  | .brk => compile_break_stmt .brk st
termination_by (sizeOf stmt, 1)
decreasing_by all_goals (simp_wf; first
  | (apply Prod.Lex.left; omega)
  | (apply Prod.Lex.right; omega))

/-- `Compiler::compile_stmt_list`. -/
def compile_stmt_list (stmt_list : List Statement) (st : Compiler) :
    Outcome (Unit × Compiler) :=
  match stmt_list with
  | [] => .ok ((), st)
  | s :: rest =>
    obind (compile_stmt s st) fun r =>
    compile_stmt_list rest r.2
termination_by (sizeOf stmt_list, 2)
decreasing_by all_goals (simp_wf; first
  | (apply Prod.Lex.left; omega)
  | (apply Prod.Lex.right; omega))

/-- `Compiler::compile_if_stmt`: allocate the end and next tags, check
the condition is Bool (note the error components: `TypeMismatch(got,
Bool)`), emit the tagged `JMPF`, compile the then-block in a weak
context, clean its stack, emit the tagged `JMP` to the end, then handle
the else-if chain and the optional else-block, patching the pending
next-tag and finally every end-tag site. -/
def compile_if_stmt (if_expr : Expression) (if_block : List Statement)
    (else_if_list : Option (List (Expression × List Statement)))
    (else_block : Option (List Statement)) (st : Compiler) :
    Outcome (Unit × Compiler) :=
  let g1 := generate_uid st
  let g2 := generate_uid g1.2
  let tag_end := g1.1
  let tag_next0 := g2.1
  obind (check_expr_type g2.2 if_expr) fun expr_type =>
  if expr_type ≠ Ty.bool then .err (.type_mismatch expr_type .bool)
  else
    obind (compile_expr if_expr g2.2) fun r =>
    obind (get_last_register r.2) fun last_reg =>
    let st1 := set_tag r.2 tag_next0
    let st2 := push_instr st1 (.JMPF last_reg tag_next0)
    obind (get_current_function st2) fun fn_ctx =>
    let st3 := push_function_context st2 (FunctionContext.new_weak fn_ctx)
    obind (compile_stmt_list if_block st3) fun r2 =>
    obind (pop_function_context r2.2) fun popped =>
    obind (compile_stack_cleanup_block popped.2 popped.1) fun st4 =>
    let st5 := set_tag st4 tag_end
    let st6 := push_instr st5 (.JMP tag_end)
    obind
      (match else_if_list with
        | some l => compile_else_ifs l tag_end tag_next0 st6
        | none => .ok (tag_next0, st6)) fun ei =>
    obind
      (match else_block with
        | some else_stmt_list =>
          obind (patch_tag_to_current ei.2 ei.1) fun st7 =>
          obind (get_current_function st7) fun fn_ctx2 =>
          let st8 := push_function_context st7 (FunctionContext.new_weak fn_ctx2)
          obind (compile_stmt_list else_stmt_list st8) fun r3 =>
          obind (pop_function_context r3.2) fun popped2 =>
          compile_stack_cleanup_block popped2.2 popped2.1
        | none => patch_tag_to_current ei.2 ei.1) fun st9 =>
    obind (patch_all_tag st9 tag_end (get_current_offset st9)) fun st10 =>
    .ok ((), st10)
termination_by
  (1 + sizeOf if_expr + sizeOf if_block + sizeOf else_if_list + sizeOf else_block, 0)
decreasing_by all_goals (simp_wf; first
  | (apply Prod.Lex.left; omega)
  | (apply Prod.Lex.right; omega))

/-- The else-if loop of `compile_if_stmt`: patch the previous next-tag to
the current offset, check and compile the condition, allocate a fresh
next tag for the tagged `JMPF`, compile the block in a weak context,
clean up and emit the tagged `JMP` to the end.  Returns the tag pending
after the last iteration. -/
def compile_else_ifs (l : List (Expression × List Statement)) (tag_end tag_next : Nat)
    (st : Compiler) : Outcome (Nat × Compiler) :=
  match l with
  | [] => .ok (tag_next, st)
  | (else_if_expr, else_if_stmt_list) :: rest =>
    obind (patch_tag_to_current st tag_next) fun st1 =>
    obind (check_expr_type st1 else_if_expr) fun expr_type =>
    if expr_type ≠ Ty.bool then .err (.type_mismatch expr_type .bool)
    else
      obind (compile_expr else_if_expr st1) fun r =>
      obind (get_last_register r.2) fun last_reg =>
      let g := generate_uid r.2
      let st2 := set_tag g.2 g.1
      let st3 := push_instr st2 (.JMPF last_reg g.1)
      obind (get_current_function st3) fun fn_ctx =>
      let st4 := push_function_context st3 (FunctionContext.new_weak fn_ctx)
      obind (compile_stmt_list else_if_stmt_list st4) fun r2 =>
      obind (pop_function_context r2.2) fun popped =>
      obind (compile_stack_cleanup_block popped.2 popped.1) fun st5 =>
      let st6 := set_tag st5 tag_end
      let st7 := push_instr st6 (.JMP tag_end)
      compile_else_ifs rest tag_end g.1 st7
termination_by (sizeOf l, 0)
decreasing_by all_goals (simp_wf; first
  | (apply Prod.Lex.left; omega)
  | (apply Prod.Lex.right; omega))

/-- `Compiler::compile_while_stmt`: push a loop-flagged context and a
loop context, check the condition is Bool (error components
`TypeMismatch(Bool, got)`), emit the tagged `JMPF`, compile the body,
compile a `continue`, patch all end-tag sites to the loop end and pop
both contexts. -/
def compile_while_stmt (while_expr : Expression) (while_stmt_list : List Statement)
    (st : Compiler) : Outcome (Unit × Compiler) :=
  obind (get_current_function st) fun cur =>
  let st1 := push_function_context st (FunctionContext.new_loop cur)
  let while_start_pos := get_current_offset st1
  let g := generate_uid st1
  let tag_end := g.1
  let st2 := push_loop_context g.2 { pos_start := while_start_pos, tag_end := tag_end }
  obind (check_expr_type st2 while_expr) fun expr_type =>
  if expr_type ≠ Ty.bool then .err (.type_mismatch .bool expr_type)
  else
    obind (compile_expr while_expr st2) fun r =>
    obind (get_last_register r.2) fun last_reg =>
    let st3 := set_tag r.2 tag_end
    let st4 := push_instr st3 (.JMPF last_reg tag_end)
    obind (compile_stmt_list while_stmt_list st4) fun r2 =>
    obind (compile_continue_stmt .cont r2.2) fun r3 =>
    let while_end_pos := get_current_offset r3.2
    obind (pop_loop_context r3.2) fun lp =>
    obind (patch_all_tag lp.2 lp.1.tag_end while_end_pos) fun st5 =>
    obind (pop_function_context st5) fun popped =>
    .ok ((), popped.2)
termination_by (1 + sizeOf while_expr + sizeOf while_stmt_list, 0)
decreasing_by all_goals (simp_wf; first
  | (apply Prod.Lex.left; omega)
  | (apply Prod.Lex.right; omega))

end

/-! Specification-side definitions.  The functions below are not
translations of source functions; they state, independently of the
compiler's control flow, the quantities the claims talk about (stack
deltas, unwind amounts, argument-offset sums), to be compared with what
the translated compiler actually does. -/

/-- Stack size of the current (innermost) function context; 0 when no
context is on the stack. -/
def stackOf (st : Compiler) : Nat :=
  match st.fn_context_stack with
  | [] => 0
  | f :: _ => f.stack_size

/-- The variable tables of the context stack, innermost first.  The
stack deltas of expressions depend on the state only through this view
and the module stack. -/
def vars_view (st : Compiler) : List (List (String × Ty × Int)) :=
  st.fn_context_stack.map (fun f => f.vars)

/-- Variable-type lookup over a variable-table view (the view image of
`var_type_in_ctxs`). -/
def var_type_in_views : List (List (String × Ty × Int)) → String → Option Ty
  | [], _ => none
  | vs :: rest, name =>
    match lookup_assoc vs name with
    | some (ty, _) => some ty
    | none => var_type_in_views rest name

/-- A compiler state that carries only a module stack (used to express
that `resolve_function` reads nothing else). -/
def mods_only (mods : List ModuleContext) : Compiler :=
  { fn_context_stack := [], mod_context_stack := mods, loop_ctx_stack := [],
    fn_uid_map := [], foreign_functions := [], foreign_function_uids := [],
    uid_counter := 0, uid_memo := [], instrs := [], tags := [],
    pending_tag := none, labels := [], data_bytes := [] }

/-- Function resolution as a function of the module stack alone. -/
def resolve_in_mods (mods : List ModuleContext) (name : String) : Outcome FunctionDef :=
  resolve_function (mods_only mods) name

/-- Byte size of a type, defaulting to 0 where `get_size_of_type`
errors (such an error aborts compilation, so the default is never
observable on a successful compile). -/
def size_default (ty : Ty) : Nat :=
  match get_size_of_type ty with
  | .ok n => n
  | _ => 0

mutual

/-- The net number of bytes compiling an expression adds to the current
context's `stack_size`: 16 for a string literal or a fat-reference
variable, the summed argument sizes plus the return size for a call
(whose arguments are never popped, see `compile_call_expr`), the sum of
the operand deltas for the register-producing operators, and 0 for the
register-sized leaves.  Defined over the variable-table view and the
module stack, the only state the delta depends on. -/
def expr_delta (vv : List (List (String × Ty × Int))) (mods : List ModuleContext) :
    Expression → Nat
  | .intLiteral _ => 0
  | .floatLiteral _ => 0
  | .boolLiteral _ => 0
  | .stringLiteral _ => 16
  | .variable name =>
    match var_type_in_views vv name with
    | some (.reference (.autoArray _)) => 16
    | _ => 0
  | .call name args =>
    match resolve_in_mods mods name with
    | .ok fd =>
      if args.length = fd.arguments.length then
        call_args_delta vv mods args fd.arguments + size_default fd.ret_type
      else 0
    | _ => 0
  | .addition lhs rhs | .subtraction lhs rhs | .multiplication lhs rhs
  | .division lhs rhs | .lessThan lhs rhs | .greaterThan lhs rhs
  | .lessThanEquals lhs rhs | .greaterThanEquals lhs rhs | .equals lhs rhs
  | .notEquals lhs rhs | .and lhs rhs | .or lhs rhs =>
    expr_delta vv mods lhs + expr_delta vv mods rhs
  | .not op => expr_delta vv mods op
  | _ => 0
termination_by e => (sizeOf e, 1)
decreasing_by all_goals (simp_wf; first
  | (apply Prod.Lex.left; omega)
  | (apply Prod.Lex.right; omega))

/-- Per-argument stack growth of a call: each argument nets its declared
size, except that an argument whose expression left extra register-sized
residue keeps that residue too (`size > 8` guards the relocation). -/
def call_args_delta (vv : List (List (String × Ty × Int))) (mods : List ModuleContext) :
    List Expression → List (String × Ty) → Nat
  | [], _ => 0
  | a :: rest, tys =>
    match tys with
    | [] => 0
    | (_, ty) :: tys_rest =>
      let d := expr_delta vv mods a
      let size := size_default ty
      (if 8 < size ∧ 0 < d then size else d + size) +
        call_args_delta vv mods rest tys_rest
termination_by args _ => (sizeOf args, 0)
decreasing_by all_goals (simp_wf; first
  | (apply Prod.Lex.left; omega)
  | (apply Prod.Lex.right; omega))

end

/-- Summed deltas of the else-if conditions of an if statement (they are
compiled in the enclosing context, between the branch blocks). -/
def else_ifs_delta (vv : List (List (String × Ty × Int))) (mods : List ModuleContext) :
    Option (List (Expression × List Statement)) → Nat
  | none => 0
  | some l => (l.map (fun p => expr_delta vv mods p.1)).sum

/-- The net number of bytes compiling one statement adds to the current
context's `stack_size`: the declared size plus the initializer's residue
for a variable declaration (the stack grow is skipped for wide types,
whose value the initializer already pushed), 8 (the saved target pointer)
plus the desugared right-hand side's residue for an assignment statement,
the full argument-plus-return growth for a bare call statement, the
condition residues for an if chain, the returned expression's residue for
a return, and 0 for while, break and continue. -/
def stmt_delta (st : Compiler) : Statement → Nat
  | .variableDecl _ decl_type assignment =>
    (match check_expr_type st assignment with
      | .ok aty =>
        let var_type := if decl_type = Ty.auto then aty else decl_type
        (match get_size_of_type var_type with
          | .ok sz =>
            expr_delta (vars_view st) st.mod_context_stack assignment +
              (if sz ≤ 8 then sz else 0)
          | _ => 0)
      | _ => 0)
  | .expression e =>
    (match e with
      | .call _ _ => expr_delta (vars_view st) st.mod_context_stack e
      | .assign _ _ | .addAssign _ _ | .subAssign _ _ | .mulAssign _ _
      | .divAssign _ _ =>
        (match assign_desugar e with
          | .ok lr => 8 + expr_delta (vars_view st) st.mod_context_stack lr.2
          | _ => 0)
      | _ => 0)
  | .ret none => 0
  | .ret (some e) => expr_delta (vars_view st) st.mod_context_stack e
  | .ifStmt c _ ei _ =>
    expr_delta (vars_view st) st.mod_context_stack c +
      else_ifs_delta (vars_view st) st.mod_context_stack ei
  | .whileStmt _ _ => 0
  | .cont => 0
  | .brk => 0

/-- Specification-side unwind amount for break/continue: the sum of the
`stack_size` fields of every context from the innermost outward up to and
including the first context flagged `is_loop`. -/
def break_unwind_amount : List FunctionContext → Nat
  | [] => 0
  | c :: rest => c.stack_size + (if c.is_loop then 0 else break_unwind_amount rest)

/-- State extraction: the current stack size after a compiler step (0 on
failure). -/
def stack_after {α : Type} : Outcome (α × Compiler) → Nat
  | .ok r => stackOf r.2
  | _ => 0

/-- State extraction: the code buffer after a compiler step ([] on
failure). -/
def instrs_after {α : Type} : Outcome (α × Compiler) → List Instr
  | .ok r => r.2.instrs
  | _ => []

/-- Success test on an outcome. -/
def outcome_ok {α : Type} : Outcome α → Bool
  | .ok _ => true
  | _ => false

/-- The six comparison constructors of the AST, as a list (so one
statement can quantify over all of them). -/
def cmp_ctors : List (Expression → Expression → Expression) :=
  [.equals, .notEquals, .lessThan, .greaterThan, .lessThanEquals, .greaterThanEquals]

/-- Specification-side foreign-argument offsets:
`offsets[i] = -(sum of the sizes of the argument types from i on)`. -/
def arg_offsets_spec : List Ty → List Int
  | [] => []
  | t :: rest =>
    (-(((size_default t + (rest.map size_default).sum : Nat) : Int))) ::
      arg_offsets_spec rest

/-- A compiler state mid-function: one context holding `x : int` at
stack position 0 with 8 bytes allocated, inside an empty root module. -/
def c1_demo : Compiler :=
  { fn_context_stack :=
      [{ stack_size := 8, vars := [("x", Ty.int, 0)], reg_cursor := 0,
         weak := false, is_loop := false, ret_type := Ty.int }],
    mod_context_stack := [ModuleContext.new "root"],
    loop_ctx_stack := [], fn_uid_map := [], foreign_functions := [],
    foreign_function_uids := [], uid_counter := 0, uid_memo := [],
    instrs := [], tags := [], pending_tag := none, labels := [],
    data_bytes := [] }

/-- A compiler state whose root module holds `f(a: int) -> int` with
uid 7, and an empty function context. -/
def c2_demo : Compiler :=
  { fn_context_stack :=
      [{ stack_size := 0, vars := [], reg_cursor := 0,
         weak := false, is_loop := false, ret_type := Ty.int }],
    mod_context_stack :=
      [ModuleContext.mk "root"
        [("f", { name := "f", arguments := [("a", Ty.int)],
                 ret_type := Ty.int, uid := 7 })] [] []],
    loop_ctx_stack := [], fn_uid_map := [], foreign_functions := [],
    foreign_function_uids := [], uid_counter := 0, uid_memo := [],
    instrs := [], tags := [], pending_tag := none, labels := [],
    data_bytes := [] }

/-- A compiler state inside a loop: a weak block (4 bytes) inside a
loop-flagged block (8 bytes) inside the function root (16 bytes), with
the loop context's end tag 5. -/
def c5_demo : Compiler :=
  { fn_context_stack :=
      [{ stack_size := 4, vars := [], reg_cursor := 0,
         weak := true, is_loop := false, ret_type := Ty.int },
       { stack_size := 8, vars := [], reg_cursor := 0,
         weak := true, is_loop := true, ret_type := Ty.int },
       { stack_size := 16, vars := [], reg_cursor := 0,
         weak := false, is_loop := false, ret_type := Ty.int }],
    mod_context_stack := [ModuleContext.new "root"],
    loop_ctx_stack := [{ pos_start := 3, tag_end := 5 }],
    fn_uid_map := [], foreign_functions := [],
    foreign_function_uids := [], uid_counter := 0, uid_memo := [],
    instrs := [], tags := [], pending_tag := none, labels := [],
    data_bytes := [] }

/-- A compiler state with `y : float` 4 bytes into a 12-byte frame. -/
def c8_demo : Compiler :=
  { fn_context_stack :=
      [{ stack_size := 12, vars := [("y", Ty.float, 4)], reg_cursor := 0,
         weak := false, is_loop := false, ret_type := Ty.void }],
    mod_context_stack := [ModuleContext.new "root"],
    loop_ctx_stack := [], fn_uid_map := [], foreign_functions := [],
    foreign_function_uids := [], uid_counter := 0, uid_memo := [],
    instrs := [], tags := [], pending_tag := none, labels := [],
    data_bytes := [] }

/-- A compiler state mid-function like `c1_demo`, for the condition
type-mismatch statements. -/
def c9_demo : Compiler :=
  { fn_context_stack :=
      [{ stack_size := 8, vars := [("x", Ty.int, 0)], reg_cursor := 0,
         weak := false, is_loop := false, ret_type := Ty.int }],
    mod_context_stack := [ModuleContext.new "root"],
    loop_ctx_stack := [], fn_uid_map := [], foreign_functions := [],
    foreign_function_uids := [], uid_counter := 0, uid_memo := [],
    instrs := [], tags := [], pending_tag := none, labels := [],
    data_bytes := [] }

/-- A foreign function `g(int, string, float) -> void` as handed to
registration (sizes and offsets still unset). -/
def c7_fn : ApiFunction :=
  { name := "g", arg_types := [Ty.int, Ty.string, Ty.float],
    return_type := Ty.void, arg_sizes := [], arg_offsets := [] }

/-- A foreign module holding only `g`. -/
def c7_api : ApiModule := ApiModule.mk "m" [("g", c7_fn)] []

/-- The argument layout the spec promises every registered foreign
function: sizes are the element sizes and each offset is the negated
suffix sum. -/
def foreign_layout_ok (f : ApiFunction) : Prop :=
  f.arg_sizes = f.arg_types.map size_default ∧
  f.arg_offsets = arg_offsets_spec f.arg_types

/-- The compiler state produced by registering `c7_api` into an empty
root module. -/
def c7_st1 : Compiler :=
  match register_foreign_root_module (mods_only [ModuleContext.new "root"]) c7_api with
  | .ok s => s
  | _ => mods_only []

/-- The foreign-function table entry that registration of `c7_api`
produces. -/
def c7_entry : Nat × ApiFunction :=
  (0, { name := "g", arg_types := [Ty.int, Ty.string, Ty.float],
        return_type := Ty.void, arg_sizes := [8, 16, 4],
        arg_offsets := [-28, -20, -4] })

/-- A compiler state holding only an empty root module context. -/
def c10_demo : Compiler := mods_only [ModuleContext.new "root"]

/-- Everything `compile_expr` preserves: the module stack, the loop
stack, every variable table, and the entire tail of the context stack. -/
def expr_frame (st st1 : Compiler) : Prop :=
  st1.mod_context_stack = st.mod_context_stack ∧
  st1.loop_ctx_stack = st.loop_ctx_stack ∧
  vars_view st1 = vars_view st ∧
  st1.fn_context_stack.tail = st.fn_context_stack.tail ∧
  st1.fn_context_stack.length = st.fn_context_stack.length

/-- The induction motive for expressions: a successful compile preserves
the expression frame and grows the current stack by the expression's
delta. -/
def ExprOk (e : Expression) : Prop :=
  ∀ st (u : Unit) st1, compile_expr e st = .ok (u, st1) →
    expr_frame st st1 ∧
    stackOf st1 = stackOf st + expr_delta (vars_view st) st.mod_context_stack e

/-- Everything a statement preserves about the context stacks: the module
stack, the loop stack, the tail of the function-context stack and its
length (a statement may only touch the innermost context: its stack size,
registers and variables). -/
def stmt_frame (st st1 : Compiler) : Prop :=
  st1.mod_context_stack = st.mod_context_stack ∧
  st1.loop_ctx_stack = st.loop_ctx_stack ∧
  st1.fn_context_stack.tail = st.fn_context_stack.tail ∧
  st1.fn_context_stack.length = st.fn_context_stack.length

/-- The induction motive for statements: a successful compile preserves
the statement frame and grows the current stack by the statement's
delta. -/
def StmtOk (s : Statement) : Prop :=
  ∀ st (u : Unit) st1, compile_stmt s st = .ok (u, st1) →
    stmt_frame st st1 ∧ stackOf st1 = stackOf st + stmt_delta st s

end Pgs

namespace Pgs

theorem obind_ok {α β : Type} {x : Outcome α} {f : α → Outcome β} {b : β} :
    obind x f = .ok b ↔ ∃ a, x = .ok a ∧ f a = .ok b := by
  cases x <;> simp [obind]

theorem expr_frame_refl (st : Compiler) : expr_frame st st := by
  simp [expr_frame]

theorem expr_frame_trans {a b c : Compiler} (h1 : expr_frame a b)
    (h2 : expr_frame b c) : expr_frame a c := by
  obtain ⟨m1, l1, v1, t1, n1⟩ := h1
  obtain ⟨m2, l2, v2, t2, n2⟩ := h2
  exact ⟨m2.trans m1, l2.trans l1, v2.trans v1, t2.trans t1, n2.trans n1⟩

theorem push_instr_frame (st : Compiler) (i : Instr) :
    expr_frame st (push_instr st i) ∧ stackOf (push_instr st i) = stackOf st := by
  simp [push_instr, expr_frame, vars_view, stackOf]

theorem set_tag_frame (st : Compiler) (t : Nat) :
    expr_frame st (set_tag st t) ∧ stackOf (set_tag st t) = stackOf st := by
  simp [set_tag, expr_frame, vars_view, stackOf]

theorem get_next_register_frame {st : Compiler} {r : Reg × Compiler}
    (h : get_next_register st = .ok r) :
    expr_frame st r.2 ∧ stackOf r.2 = stackOf st := by
  unfold get_next_register at h
  cases hst : st.fn_context_stack with
  | nil => simp [hst] at h
  | cons f rest =>
    simp [hst, get_temp_register, obind] at h
    subst h
    simp [expr_frame, vars_view, stackOf, hst]

theorem inc_stack_ok {st : Compiler} {n : Nat} {st1 : Compiler}
    (h : inc_stack st n = .ok st1) :
    expr_frame st st1 ∧ stackOf st1 = stackOf st + n := by
  unfold inc_stack at h
  cases hst : st.fn_context_stack with
  | nil => simp [hst] at h
  | cons f rest =>
    simp [hst] at h
    simp [expr_frame, vars_view, stackOf, hst, ← h]

theorem dec_stack_ok {st : Compiler} {n : Nat} {st1 : Compiler}
    (h : dec_stack st n = .ok st1) :
    expr_frame st st1 ∧ stackOf st1 = stackOf st - n := by
  unfold dec_stack at h
  cases hst : st.fn_context_stack with
  | nil => simp [hst] at h
  | cons f rest =>
    simp [hst] at h
    simp [expr_frame, vars_view, stackOf, hst, ← h]

theorem get_stack_size_ok {st : Compiler} {n : Nat}
    (h : get_stack_size st = .ok n) : n = stackOf st := by
  unfold get_stack_size at h
  cases hst : st.fn_context_stack <;> simp [hst] at h
  simp [stackOf, hst, h]

theorem get_string_slice_frame (st : Compiler) (s : String) :
    expr_frame st (get_string_slice st s).2 ∧
      stackOf (get_string_slice st s).2 = stackOf st := by
  simp [get_string_slice, expr_frame, vars_view, stackOf]

theorem var_type_in_ctxs_view (ctxs : List FunctionContext) (name : String) :
    var_type_in_ctxs ctxs name =
      var_type_in_views (ctxs.map (fun f => f.vars)) name := by
  induction ctxs with
  | nil => simp [var_type_in_ctxs, var_type_in_views]
  | cons f rest ih =>
    simp only [var_type_in_ctxs, var_type_in_views, List.map]
    cases lookup_assoc f.vars name with
    | none => simpa using ih
    | some p => simp

theorem get_type_of_var_view (st : Compiler) (name : String) :
    get_type_of_var st name =
      (match var_type_in_views (vars_view st) name with
        | some ty => Outcome.ok ty
        | none => Outcome.err (.unknown_variable name)) := by
  simp [get_type_of_var, var_type_in_ctxs_view, vars_view]

theorem resolve_qualified_congr {st st1 : Compiler}
    (hm : st1.mod_context_stack = st.mod_context_stack) (name : String)
    (frags : List String) :
    resolve_qualified st1 name frags = resolve_qualified st name frags := by
  unfold resolve_qualified resolve_qualified_from get_root_module get_current_module
  rw [hm]

theorem resolve_function_fuel_congr {st st1 : Compiler}
    (hm : st1.mod_context_stack = st.mod_context_stack) :
    ∀ (fuel : Nat) (name : String),
      resolve_function_fuel st1 fuel name = resolve_function_fuel st fuel name := by
  intro fuel
  induction fuel with
  | zero => intro name; simp [resolve_function_fuel]
  | succ n ih =>
    intro name
    unfold resolve_function_fuel
    rw [resolve_qualified_congr hm]
    by_cases hq : contains_path_sep name.data = true
    · simp [hq]
    · simp only [hq, if_false]
      unfold get_current_module
      rw [hm]
      cases st.mod_context_stack with
      | nil => rfl
      | cons m rest =>
        simp only [obind]
        cases hf : lookup_assoc m.functions name with
        | some fd => simp [hf]
        | none =>
          cases hi : lookup_assoc m.imports name with
          | some import_path =>
            simp only [hf, hi]
            exact ih import_path
          | none => simp [hf, hi]

theorem resolve_function_view (st : Compiler) (name : String) :
    resolve_function st name = resolve_in_mods st.mod_context_stack name := by
  unfold resolve_in_mods resolve_function
  have hm : (mods_only st.mod_context_stack).mod_context_stack = st.mod_context_stack := by
    simp [mods_only]
  rw [resolve_function_fuel_congr hm.symm]
  have hf : import_fuel (mods_only st.mod_context_stack) = import_fuel st := by
    simp [import_fuel, mods_only]
  rw [hf]

end Pgs

namespace Pgs

theorem size_default_of_ok {t : Ty} {n : Nat} (h : get_size_of_type t = .ok n) :
    size_default t = n := by
  simp [size_default, h]

theorem compile_bin_op_ok {lhs rhs : Expression}
    (ihl : ExprOk lhs) (ihr : ExprOk rhs)
    {op_i op_f : Reg → Reg → Reg → Instr} {st : Compiler} {u : Unit} {st1 : Compiler}
    (h : compile_bin_op op_i op_f lhs rhs st = .ok (u, st1)) :
    expr_frame st st1 ∧
    stackOf st1 = stackOf st +
      (expr_delta (vars_view st) st.mod_context_stack lhs +
        expr_delta (vars_view st) st.mod_context_stack rhs) := by
  unfold compile_bin_op at h
  rcases obind_ok.mp h with ⟨ety, hcheck, h⟩
  rcases obind_ok.mp h with ⟨r1, hc1, h⟩
  rcases obind_ok.mp h with ⟨lreg, hlast1, h⟩
  rcases obind_ok.mp h with ⟨r2, hc2, h⟩
  rcases obind_ok.mp h with ⟨rreg, hlast2, h⟩
  obtain ⟨hf1, hs1⟩ := ihl st r1.1 r1.2 hc1
  obtain ⟨hf2, hs2⟩ := ihr r1.2 r2.1 r2.2 hc2
  have hview1 : vars_view r1.2 = vars_view st := hf1.2.2.1
  have hmod1 : r1.2.mod_context_stack = st.mod_context_stack := hf1.1
  rw [hview1, hmod1] at hs2
  cases ety with
  | int =>
    rcases obind_ok.mp h with ⟨res, hres, hpush⟩
    cases hpush
    obtain ⟨hf3, hs3⟩ := get_next_register_frame hres
    obtain ⟨hf4, hs4⟩ := push_instr_frame res.2 (op_i lreg rreg res.1)
    refine ⟨expr_frame_trans hf1 (expr_frame_trans hf2 (expr_frame_trans hf3 hf4)), ?_⟩
    rw [hs4, hs3, hs2, hs1]
    omega
  | float =>
    rcases obind_ok.mp h with ⟨res, hres, hpush⟩
    cases hpush
    obtain ⟨hf3, hs3⟩ := get_next_register_frame hres
    obtain ⟨hf4, hs4⟩ := push_instr_frame res.2 (op_f lreg rreg res.1)
    refine ⟨expr_frame_trans hf1 (expr_frame_trans hf2 (expr_frame_trans hf3 hf4)), ?_⟩
    rw [hs4, hs3, hs2, hs1]
    omega
  | bool => simp at h
  | string => simp at h
  | void => simp at h
  | reference inner => simp at h
  | array inner size => simp at h
  | other name => simp at h
  | auto => simp at h
  | autoArray inner => simp at h

end Pgs

namespace Pgs

theorem compile_call_args_ok :
    ∀ (args : List Expression), (∀ a ∈ args, ExprOk a) →
    ∀ tys n st res, compile_call_args args tys n st = .ok res →
      n = stackOf st →
      expr_frame st res.2 ∧ res.1 = stackOf res.2 ∧
      stackOf res.2 = stackOf st +
        call_args_delta (vars_view st) st.mod_context_stack args tys := by
  intro args
  induction args with
  | nil =>
    intro _ tys n st res h hn
    unfold compile_call_args at h
    cases h
    exact ⟨expr_frame_refl st, by simpa using hn, by simp [call_args_delta]⟩
  | cons a rest iha =>
    intro hmem tys n st res h hn
    cases tys with
    | nil => unfold compile_call_args at h; simp at h
    | cons ty0 tys_rest =>
      obtain ⟨arg_name, fn_arg_type⟩ := ty0
      unfold compile_call_args at h
      rcases obind_ok.mp h with ⟨ety, hcheck, h⟩
      by_cases hty : fn_arg_type ≠ ety
      · simp [hty] at h
      · simp only [hty, if_false] at h
        have heq : fn_arg_type = ety := not_not.mp hty
        rcases obind_ok.mp h with ⟨r1, hc1, h⟩
        rcases obind_ok.mp h with ⟨curr, hcurr, h⟩
        rcases obind_ok.mp h with ⟨size, hsize, h⟩
        rcases obind_ok.mp h with ⟨st2, hreloc, h⟩
        rcases obind_ok.mp h with ⟨last_reg, hlast, h⟩
        rcases obind_ok.mp h with ⟨st4, hinc, h⟩
        rcases obind_ok.mp h with ⟨mov_opt, hmov, h⟩
        generalize hst5 :
          (match mov_opt with | some i => push_instr st4 i | none => st4) = st5 at h
        rcases obind_ok.mp h with ⟨new_n, hnew, hrec⟩
        obtain ⟨hfa, hsa⟩ := hmem a (List.mem_cons_self a rest) st r1.1 r1.2 hc1
        have hcurr2 : curr = stackOf r1.2 := get_stack_size_ok hcurr
        have hdiff : curr - n = expr_delta (vars_view st) st.mod_context_stack a := by
          rw [hcurr2, hsa, hn]; omega
        rw [hdiff] at hreloc
        have hsd : size_default fn_arg_type = size := by
          rw [heq]; exact size_default_of_ok hsize
        obtain ⟨hf2, hs2⟩ :
            expr_frame r1.2 st2 ∧
              stackOf st2 =
                (if 8 < size ∧ 0 < expr_delta (vars_view st) st.mod_context_stack a then
                  stackOf st else stackOf r1.2) := by
          by_cases hcond : 8 < size ∧ 0 < expr_delta (vars_view st) st.mod_context_stack a
          · rw [if_pos hcond] at hreloc ⊢
            obtain ⟨hfd, hsd2⟩ := dec_stack_ok hreloc
            obtain ⟨hfp1, hsp1⟩ := push_instr_frame r1.2
              (.MOVN_A .sp (-(size : Int)) .sp
                (-((expr_delta (vars_view st) st.mod_context_stack a : Nat) : Int)) size)
            obtain ⟨hfp2, hsp2⟩ := push_instr_frame
              (push_instr r1.2 (.MOVN_A .sp (-(size : Int)) .sp
                (-((expr_delta (vars_view st) st.mod_context_stack a : Nat) : Int)) size))
              (new_dec_stack (expr_delta (vars_view st) st.mod_context_stack a))
            refine ⟨expr_frame_trans hfp1 (expr_frame_trans hfp2 hfd), ?_⟩
            rw [hsd2, hsp2, hsp1, hsa]
            omega
          · rw [if_neg hcond] at hreloc ⊢
            cases hreloc
            exact ⟨expr_frame_refl r1.2, rfl⟩
        obtain ⟨hfi, hsi⟩ := inc_stack_ok hinc
        obtain ⟨hfp3, hsp3⟩ := push_instr_frame st2 (new_inc_stack size)
        have hfinc : expr_frame st2 st4 := expr_frame_trans hfp3 hfi
        have hsinc : stackOf st4 = stackOf st2 + size := by rw [hsi, hsp3]
        obtain ⟨hf5, hs5⟩ : expr_frame st4 st5 ∧ stackOf st5 = stackOf st4 := by
          rw [← hst5]
          cases mov_opt with
          | some i => exact push_instr_frame st4 i
          | none => exact ⟨expr_frame_refl st4, rfl⟩
        have hnew2 : new_n = stackOf st5 := get_stack_size_ok hnew
        obtain ⟨hfr, hres1, hsr⟩ := iha (fun x hx => hmem x (List.mem_cons_of_mem a hx))
          tys_rest new_n st5 res hrec hnew2
        have hframe_to_st5 : expr_frame st st5 :=
          expr_frame_trans hfa (expr_frame_trans hf2 (expr_frame_trans hfinc hf5))
        refine ⟨expr_frame_trans hframe_to_st5 hfr, hres1, ?_⟩
        rw [hsr, hframe_to_st5.2.2.1, hframe_to_st5.1]
        simp only [call_args_delta, hsd]
        rw [hs5, hsinc, hs2, hsa]
        by_cases hcond : 8 < size ∧ 0 < expr_delta (vars_view st) st.mod_context_stack a
        · rw [if_pos hcond, if_pos hcond]
          omega
        · rw [if_neg hcond, if_neg hcond]
          omega

end Pgs

namespace Pgs

theorem var_delta_fat {vv : List (List (String × Ty × Int))} {mods : List ModuleContext}
    {name : String} {t : Ty}
    (hv : var_type_in_views vv name = some (.reference (.autoArray t))) :
    expr_delta vv mods (.variable name) = 16 := by
  unfold expr_delta
  rw [hv]

theorem var_delta_of_not_fat {vv : List (List (String × Ty × Int))}
    {mods : List ModuleContext} {name : String} {ty : Ty}
    (hv : var_type_in_views vv name = some ty)
    (hty : ∀ t, ty ≠ .reference (.autoArray t)) :
    expr_delta vv mods (.variable name) = 0 := by
  unfold expr_delta
  rw [hv]
  cases ty with
  | reference inner =>
    cases inner with
    | autoArray t => exact absurd rfl (hty t)
    | _ => simp
  | _ => simp

theorem compile_var_expr_ok {st : Compiler} {name : String} {u : Unit} {st1 : Compiler}
    (h : compile_var_expr st (.variable name) = .ok (u, st1)) :
    expr_frame st st1 ∧
    stackOf st1 = stackOf st +
      expr_delta (vars_view st) st.mod_context_stack (.variable name) := by
  unfold compile_var_expr at h
  rcases obind_ok.mp h with ⟨var_type, htype, h⟩
  rcases obind_ok.mp h with ⟨off, hoff, h⟩
  rw [get_type_of_var_view] at htype
  cases hv : var_type_in_views (vars_view st) name with
  | none => rw [hv] at htype; cases htype
  | some ty =>
    rw [hv] at htype
    cases htype
    cases var_type with
    | int =>
      rcases obind_ok.mp h with ⟨r, hr, hpush⟩
      cases hpush
      obtain ⟨hf1, hs1⟩ := get_next_register_frame hr
      obtain ⟨hf2, hs2⟩ := push_instr_frame r.2 (.MOVI_AR .sp off r.1)
      rw [var_delta_of_not_fat hv (by intro t ht; cases ht)]
      exact ⟨expr_frame_trans hf1 hf2, by rw [hs2, hs1]; omega⟩
    | float =>
      rcases obind_ok.mp h with ⟨r, hr, hpush⟩
      cases hpush
      obtain ⟨hf1, hs1⟩ := get_next_register_frame hr
      obtain ⟨hf2, hs2⟩ := push_instr_frame r.2 (.MOVF_AR .sp off r.1)
      rw [var_delta_of_not_fat hv (by intro t ht; cases ht)]
      exact ⟨expr_frame_trans hf1 hf2, by rw [hs2, hs1]; omega⟩
    | bool =>
      rcases obind_ok.mp h with ⟨r, hr, hpush⟩
      cases hpush
      obtain ⟨hf1, hs1⟩ := get_next_register_frame hr
      obtain ⟨hf2, hs2⟩ := push_instr_frame r.2 (.MOVB_AR .sp off r.1)
      rw [var_delta_of_not_fat hv (by intro t ht; cases ht)]
      exact ⟨expr_frame_trans hf1 hf2, by rw [hs2, hs1]; omega⟩
    | reference inner =>
      cases inner with
      | autoArray t =>
        rcases obind_ok.mp h with ⟨sti, hinc, h⟩
        rcases obind_ok.mp h with ⟨off2, hoff2, hpush⟩
        cases hpush
        obtain ⟨hf1, hs1⟩ := inc_stack_ok hinc
        obtain ⟨hf2, hs2⟩ := push_instr_frame sti (new_inc_stack 16)
        obtain ⟨hf3, hs3⟩ := push_instr_frame (push_instr sti (new_inc_stack 16))
          (.MOVN_A .sp off2 .sp (-16) 16)
        rw [var_delta_fat hv]
        exact ⟨expr_frame_trans hf1 (expr_frame_trans hf2 hf3),
          by rw [hs3, hs2, hs1]⟩
      | int =>
        rcases obind_ok.mp h with ⟨r, hr, hpush⟩
        cases hpush
        obtain ⟨hf1, hs1⟩ := get_next_register_frame hr
        obtain ⟨hf2, hs2⟩ := push_instr_frame r.2 (.MOVA_AR .sp off r.1)
        rw [var_delta_of_not_fat hv (by intro t ht; cases ht)]
        exact ⟨expr_frame_trans hf1 hf2, by rw [hs2, hs1]; omega⟩
      | float =>
        rcases obind_ok.mp h with ⟨r, hr, hpush⟩
        cases hpush
        obtain ⟨hf1, hs1⟩ := get_next_register_frame hr
        obtain ⟨hf2, hs2⟩ := push_instr_frame r.2 (.MOVA_AR .sp off r.1)
        rw [var_delta_of_not_fat hv (by intro t ht; cases ht)]
        exact ⟨expr_frame_trans hf1 hf2, by rw [hs2, hs1]; omega⟩
      | bool =>
        rcases obind_ok.mp h with ⟨r, hr, hpush⟩
        cases hpush
        obtain ⟨hf1, hs1⟩ := get_next_register_frame hr
        obtain ⟨hf2, hs2⟩ := push_instr_frame r.2 (.MOVA_AR .sp off r.1)
        rw [var_delta_of_not_fat hv (by intro t ht; cases ht)]
        exact ⟨expr_frame_trans hf1 hf2, by rw [hs2, hs1]; omega⟩
      | string =>
        rcases obind_ok.mp h with ⟨r, hr, hpush⟩
        cases hpush
        obtain ⟨hf1, hs1⟩ := get_next_register_frame hr
        obtain ⟨hf2, hs2⟩ := push_instr_frame r.2 (.MOVA_AR .sp off r.1)
        rw [var_delta_of_not_fat hv (by intro t ht; cases ht)]
        exact ⟨expr_frame_trans hf1 hf2, by rw [hs2, hs1]; omega⟩
      | void =>
        rcases obind_ok.mp h with ⟨r, hr, hpush⟩
        cases hpush
        obtain ⟨hf1, hs1⟩ := get_next_register_frame hr
        obtain ⟨hf2, hs2⟩ := push_instr_frame r.2 (.MOVA_AR .sp off r.1)
        rw [var_delta_of_not_fat hv (by intro t ht; cases ht)]
        exact ⟨expr_frame_trans hf1 hf2, by rw [hs2, hs1]; omega⟩
      | reference t2 =>
        rcases obind_ok.mp h with ⟨r, hr, hpush⟩
        cases hpush
        obtain ⟨hf1, hs1⟩ := get_next_register_frame hr
        obtain ⟨hf2, hs2⟩ := push_instr_frame r.2 (.MOVA_AR .sp off r.1)
        rw [var_delta_of_not_fat hv (by intro t ht; cases ht)]
        exact ⟨expr_frame_trans hf1 hf2, by rw [hs2, hs1]; omega⟩
      | array t2 sz =>
        rcases obind_ok.mp h with ⟨r, hr, hpush⟩
        cases hpush
        obtain ⟨hf1, hs1⟩ := get_next_register_frame hr
        obtain ⟨hf2, hs2⟩ := push_instr_frame r.2 (.MOVA_AR .sp off r.1)
        rw [var_delta_of_not_fat hv (by intro t ht; cases ht)]
        exact ⟨expr_frame_trans hf1 hf2, by rw [hs2, hs1]; omega⟩
      | other nm =>
        rcases obind_ok.mp h with ⟨r, hr, hpush⟩
        cases hpush
        obtain ⟨hf1, hs1⟩ := get_next_register_frame hr
        obtain ⟨hf2, hs2⟩ := push_instr_frame r.2 (.MOVA_AR .sp off r.1)
        rw [var_delta_of_not_fat hv (by intro t ht; cases ht)]
        exact ⟨expr_frame_trans hf1 hf2, by rw [hs2, hs1]; omega⟩
      | auto =>
        rcases obind_ok.mp h with ⟨r, hr, hpush⟩
        cases hpush
        obtain ⟨hf1, hs1⟩ := get_next_register_frame hr
        obtain ⟨hf2, hs2⟩ := push_instr_frame r.2 (.MOVA_AR .sp off r.1)
        rw [var_delta_of_not_fat hv (by intro t ht; cases ht)]
        exact ⟨expr_frame_trans hf1 hf2, by rw [hs2, hs1]; omega⟩
    | string => cases h
    | void => cases h
    | array t2 sz => cases h
    | other nm => cases h
    | auto => cases h
    | autoArray t2 => cases h

theorem compile_call_expr_ok {fn_name : String} {args : List Expression}
    (ih : ∀ a ∈ args, ExprOk a) {st : Compiler} {u : Unit} {st1 : Compiler}
    (h : compile_call_expr (.call fn_name args) st = .ok (u, st1)) :
    expr_frame st st1 ∧
    stackOf st1 = stackOf st +
      expr_delta (vars_view st) st.mod_context_stack (.call fn_name args) := by
  unfold compile_call_expr at h
  rcases obind_ok.mp h with ⟨fd, hres, h⟩
  rcases obind_ok.mp h with ⟨ret_size, hretsz, h⟩
  by_cases hlen : args.length ≠ fd.arguments.length
  · simp [hlen] at h
  · simp only [hlen, if_false] at h
    have hlen2 : args.length = fd.arguments.length := not_not.mp hlen
    rcases obind_ok.mp h with ⟨n0, hn0, h⟩
    rcases obind_ok.mp h with ⟨res, hargs, h⟩
    rcases obind_ok.mp h with ⟨st2, hinc, h⟩
    rcases obind_ok.mp h with ⟨cur, hcur, h⟩
    rcases obind_ok.mp h with ⟨st3, hdec, h⟩
    cases h
    obtain ⟨hfargs, hres1, hsargs⟩ :=
      compile_call_args_ok args ih fd.arguments n0 st res hargs (get_stack_size_ok hn0)
    obtain ⟨hfc, hsc⟩ := push_instr_frame res.2 (.CALL fd.uid)
    obtain ⟨hfi, hsi⟩ := inc_stack_ok hinc
    have hcur2 : cur = stackOf st2 := get_stack_size_ok hcur
    obtain ⟨hfd2, hsd2⟩ := dec_stack_ok hdec
    have hpop : cur - res.1 - ret_size = 0 := by
      rw [hcur2, hsi, hsc, hres1]; omega
    rw [hpop] at hsd2
    obtain ⟨hfp1, hsp1⟩ := push_instr_frame st3
      (.MOVN_A .sp (-(ret_size : Int)) .sp (-((cur - res.1 : Nat) : Int)) ret_size)
    obtain ⟨hfp2, hsp2⟩ := push_instr_frame
      (push_instr st3 (.MOVN_A .sp (-(ret_size : Int)) .sp (-((cur - res.1 : Nat) : Int)) ret_size))
      (new_dec_stack (cur - res.1 - ret_size))
    refine ⟨expr_frame_trans hfargs (expr_frame_trans hfc (expr_frame_trans hfi
      (expr_frame_trans hfd2 (expr_frame_trans hfp1 hfp2)))), ?_⟩
    rw [resolve_function_view] at hres
    unfold expr_delta
    rw [hres]
    simp only [hlen2, if_true]
    rw [size_default_of_ok hretsz]
    rw [hsp2, hsp1, hsd2, hsi, hsc, hsargs]
    omega

end Pgs

namespace Pgs

theorem expr_ok_sized : ∀ (n : Nat) (e : Expression), sizeOf e ≤ n → ExprOk e := by
  intro n
  induction n with
  | zero =>
    intro e he
    exfalso
    cases e <;> simp at he
  | succ n ih =>
    intro e he st u st1 h
    cases e with
    | intLiteral v =>
      simp only [compile_expr] at h
      rcases obind_ok.mp h with ⟨r, hr, hpush⟩
      cases hpush
      obtain ⟨hf1, hs1⟩ := get_next_register_frame hr
      obtain ⟨hf2, hs2⟩ := push_instr_frame r.2 (.LDI v r.1)
      exact ⟨expr_frame_trans hf1 hf2, by rw [hs2, hs1]; simp [expr_delta]⟩
    | floatLiteral v =>
      simp only [compile_expr] at h
      rcases obind_ok.mp h with ⟨r, hr, hpush⟩
      cases hpush
      obtain ⟨hf1, hs1⟩ := get_next_register_frame hr
      obtain ⟨hf2, hs2⟩ := push_instr_frame r.2 (.LDF v r.1)
      exact ⟨expr_frame_trans hf1 hf2, by rw [hs2, hs1]; simp [expr_delta]⟩
    | boolLiteral v =>
      simp only [compile_expr] at h
      rcases obind_ok.mp h with ⟨r, hr, hpush⟩
      cases hpush
      obtain ⟨hf1, hs1⟩ := get_next_register_frame hr
      obtain ⟨hf2, hs2⟩ := push_instr_frame r.2 (.LDB v r.1)
      exact ⟨expr_frame_trans hf1 hf2, by rw [hs2, hs1]; simp [expr_delta]⟩
    | stringLiteral s =>
      simp only [compile_expr] at h
      rcases obind_ok.mp h with ⟨sti, hinc, h⟩
      rcases obind_ok.mp h with ⟨sr, hsr, h⟩
      rcases obind_ok.mp h with ⟨ar, har, hpush⟩
      cases hpush
      obtain ⟨hf0, hs0⟩ := get_string_slice_frame st (strip_quotes s)
      obtain ⟨hf1, hs1⟩ := inc_stack_ok hinc
      obtain ⟨hf2, hs2⟩ := get_next_register_frame hsr
      obtain ⟨hf3, hs3⟩ := get_next_register_frame har
      refine ⟨expr_frame_trans hf0 (expr_frame_trans hf1 (expr_frame_trans hf2
        (expr_frame_trans hf3 (expr_frame_trans (push_instr_frame _ _).1
          (expr_frame_trans (push_instr_frame _ _).1 (expr_frame_trans (push_instr_frame _ _).1
            (expr_frame_trans (push_instr_frame _ _).1 (push_instr_frame _ _).1))))))), ?_⟩
      simp only [(push_instr_frame _ _).2, hs3, hs2, hs1, hs0]
      simp [expr_delta]
    | «variable» name =>
      simp only [compile_expr] at h
      exact compile_var_expr_ok h
    | call fn_name args =>
      simp only [compile_expr] at h
      rcases obind_ok.mp h with ⟨r, hcall, h⟩
      have ihmem : ∀ a ∈ args, ExprOk a := by
        intro a ha
        refine ih a ?_
        have h1 : sizeOf a < sizeOf args := List.sizeOf_lt_of_mem ha
        have h2 : sizeOf (Expression.call fn_name args) ≤ n + 1 := he
        simp at h2
        omega
      obtain ⟨hf1, hs1⟩ := compile_call_expr_ok ihmem hcall
      cases hfn : r.2.fn_context_stack with
      | nil => rw [hfn] at h; cases h
      | cons f rest =>
        rw [hfn] at h
        cases h
        refine ⟨expr_frame_trans hf1 ?_, ?_⟩
        · constructor
          · simp
          constructor
          · simp
          constructor
          · simp [vars_view, hfn, force_temp_register]
          constructor
          · simp [hfn]
          · simp [hfn]
        · simp only [stackOf, force_temp_register]
          simp only [stackOf, hfn] at hs1
          exact hs1
    | addition lhs rhs =>
      simp only [compile_expr] at h
      have ihl : ExprOk lhs := ih lhs (by simp at he; omega)
      have ihr : ExprOk rhs := ih rhs (by simp at he; omega)
      obtain ⟨hf, hs⟩ := compile_bin_op_ok ihl ihr h
      exact ⟨hf, by rw [hs]; simp [expr_delta]⟩
    | subtraction lhs rhs =>
      simp only [compile_expr] at h
      have ihl : ExprOk lhs := ih lhs (by simp at he; omega)
      have ihr : ExprOk rhs := ih rhs (by simp at he; omega)
      obtain ⟨hf, hs⟩ := compile_bin_op_ok ihl ihr h
      exact ⟨hf, by rw [hs]; simp [expr_delta]⟩
    | multiplication lhs rhs =>
      simp only [compile_expr] at h
      have ihl : ExprOk lhs := ih lhs (by simp at he; omega)
      have ihr : ExprOk rhs := ih rhs (by simp at he; omega)
      obtain ⟨hf, hs⟩ := compile_bin_op_ok ihl ihr h
      exact ⟨hf, by rw [hs]; simp [expr_delta]⟩
    | division lhs rhs =>
      simp only [compile_expr] at h
      have ihl : ExprOk lhs := ih lhs (by simp at he; omega)
      have ihr : ExprOk rhs := ih rhs (by simp at he; omega)
      obtain ⟨hf, hs⟩ := compile_bin_op_ok ihl ihr h
      exact ⟨hf, by rw [hs]; simp [expr_delta]⟩
    | lessThan lhs rhs =>
      simp only [compile_expr] at h
      have ihl : ExprOk lhs := ih lhs (by simp at he; omega)
      have ihr : ExprOk rhs := ih rhs (by simp at he; omega)
      obtain ⟨hf, hs⟩ := compile_bin_op_ok ihl ihr h
      exact ⟨hf, by rw [hs]; simp [expr_delta]⟩
    | greaterThan lhs rhs =>
      simp only [compile_expr] at h
      have ihl : ExprOk lhs := ih lhs (by simp at he; omega)
      have ihr : ExprOk rhs := ih rhs (by simp at he; omega)
      obtain ⟨hf, hs⟩ := compile_bin_op_ok ihl ihr h
      exact ⟨hf, by rw [hs]; simp [expr_delta]⟩
    | lessThanEquals lhs rhs =>
      simp only [compile_expr] at h
      have ihl : ExprOk lhs := ih lhs (by simp at he; omega)
      have ihr : ExprOk rhs := ih rhs (by simp at he; omega)
      obtain ⟨hf, hs⟩ := compile_bin_op_ok ihl ihr h
      exact ⟨hf, by rw [hs]; simp [expr_delta]⟩
    | greaterThanEquals lhs rhs =>
      simp only [compile_expr] at h
      have ihl : ExprOk lhs := ih lhs (by simp at he; omega)
      have ihr : ExprOk rhs := ih rhs (by simp at he; omega)
      obtain ⟨hf, hs⟩ := compile_bin_op_ok ihl ihr h
      exact ⟨hf, by rw [hs]; simp [expr_delta]⟩
    | equals lhs rhs =>
      simp only [compile_expr] at h
      have ihl : ExprOk lhs := ih lhs (by simp at he; omega)
      have ihr : ExprOk rhs := ih rhs (by simp at he; omega)
      obtain ⟨hf, hs⟩ := compile_bin_op_ok ihl ihr h
      exact ⟨hf, by rw [hs]; simp [expr_delta]⟩
    | notEquals lhs rhs =>
      simp only [compile_expr] at h
      have ihl : ExprOk lhs := ih lhs (by simp at he; omega)
      have ihr : ExprOk rhs := ih rhs (by simp at he; omega)
      obtain ⟨hf, hs⟩ := compile_bin_op_ok ihl ihr h
      exact ⟨hf, by rw [hs]; simp [expr_delta]⟩
    | not op =>
      simp only [compile_expr] at h
      have iho : ExprOk op := ih op (by simp at he; omega)
      rcases obind_ok.mp h with ⟨r, hc, h⟩
      rcases obind_ok.mp h with ⟨op_reg, hlast, h⟩
      rcases obind_ok.mp h with ⟨tr, htr, hpush⟩
      cases hpush
      obtain ⟨hf1, hs1⟩ := iho st r.1 r.2 hc
      obtain ⟨hf2, hs2⟩ := get_next_register_frame htr
      obtain ⟨hf3, hs3⟩ := push_instr_frame tr.2 (.NOT op_reg tr.1)
      refine ⟨expr_frame_trans hf1 (expr_frame_trans hf2 hf3), ?_⟩
      rw [hs3, hs2, hs1]
      simp [expr_delta]
    | and lhs rhs =>
      simp only [compile_expr] at h
      have ihl : ExprOk lhs := ih lhs (by simp at he; omega)
      have ihr : ExprOk rhs := ih rhs (by simp at he; omega)
      rcases obind_ok.mp h with ⟨r1, hc1, h⟩
      rcases obind_ok.mp h with ⟨lreg, hl1, h⟩
      rcases obind_ok.mp h with ⟨r2, hc2, h⟩
      rcases obind_ok.mp h with ⟨rreg, hl2, h⟩
      rcases obind_ok.mp h with ⟨tr, htr, hpush⟩
      cases hpush
      obtain ⟨hf1, hs1⟩ := ihl st r1.1 r1.2 hc1
      obtain ⟨hf2, hs2⟩ := ihr r1.2 r2.1 r2.2 hc2
      rw [hf1.2.2.1, hf1.1] at hs2
      obtain ⟨hf3, hs3⟩ := get_next_register_frame htr
      obtain ⟨hf4, hs4⟩ := push_instr_frame tr.2 (.AND lreg rreg tr.1)
      refine ⟨expr_frame_trans hf1 (expr_frame_trans hf2 (expr_frame_trans hf3 hf4)), ?_⟩
      rw [hs4, hs3, hs2, hs1]
      simp [expr_delta]
      omega
    | or lhs rhs =>
      simp only [compile_expr] at h
      have ihl : ExprOk lhs := ih lhs (by simp at he; omega)
      have ihr : ExprOk rhs := ih rhs (by simp at he; omega)
      rcases obind_ok.mp h with ⟨r1, hc1, h⟩
      rcases obind_ok.mp h with ⟨lreg, hl1, h⟩
      rcases obind_ok.mp h with ⟨r2, hc2, h⟩
      rcases obind_ok.mp h with ⟨rreg, hl2, h⟩
      rcases obind_ok.mp h with ⟨tr, htr, hpush⟩
      cases hpush
      obtain ⟨hf1, hs1⟩ := ihl st r1.1 r1.2 hc1
      obtain ⟨hf2, hs2⟩ := ihr r1.2 r2.1 r2.2 hc2
      rw [hf1.2.2.1, hf1.1] at hs2
      obtain ⟨hf3, hs3⟩ := get_next_register_frame htr
      obtain ⟨hf4, hs4⟩ := push_instr_frame tr.2 (.OR lreg rreg tr.1)
      refine ⟨expr_frame_trans hf1 (expr_frame_trans hf2 (expr_frame_trans hf3 hf4)), ?_⟩
      rw [hs4, hs3, hs2, hs1]
      simp [expr_delta]
      omega
    | assign lhs rhs => simp only [compile_expr] at h; cases h
    | addAssign lhs rhs => simp only [compile_expr] at h; cases h
    | subAssign lhs rhs => simp only [compile_expr] at h; cases h
    | mulAssign lhs rhs => simp only [compile_expr] at h; cases h
    | divAssign lhs rhs => simp only [compile_expr] at h; cases h

/-- Main expression lemma: a successful `compile_expr` preserves the
expression frame and adds exactly `expr_delta` to the current context's
stack size. -/
theorem compile_expr_delta (e : Expression) : ExprOk e :=
  expr_ok_sized (sizeOf e) e (Nat.le_refl _)

end Pgs

namespace Pgs

theorem stmt_frame_refl (st : Compiler) : stmt_frame st st := by
  simp [stmt_frame]

theorem stmt_frame_trans {a b c : Compiler} (h1 : stmt_frame a b)
    (h2 : stmt_frame b c) : stmt_frame a c := by
  obtain ⟨m1, l1, t1, n1⟩ := h1
  obtain ⟨m2, l2, t2, n2⟩ := h2
  exact ⟨m2.trans m1, l2.trans l1, t2.trans t1, n2.trans n1⟩

theorem expr_frame_to_stmt {a b : Compiler} (h : expr_frame a b) : stmt_frame a b :=
  ⟨h.1, h.2.1, h.2.2.2.1, h.2.2.2.2⟩

theorem generate_uid_frame (st : Compiler) :
    expr_frame st (generate_uid st).2 ∧ stackOf (generate_uid st).2 = stackOf st := by
  simp [generate_uid, expr_frame, vars_view, stackOf]

theorem set_instr_frame (st : Compiler) (idx : Nat) (i : Instr) :
    expr_frame st (set_instr st idx i) ∧ stackOf (set_instr st idx i) = stackOf st ∧
      (set_instr st idx i).fn_context_stack = st.fn_context_stack := by
  simp [set_instr, expr_frame, vars_view, stackOf]

theorem patch_tag_to_current_frame {st : Compiler} {t : Nat} {st1 : Compiler}
    (h : patch_tag_to_current st t = .ok st1) :
    expr_frame st st1 ∧ stackOf st1 = stackOf st ∧
      st1.fn_context_stack = st.fn_context_stack := by
  unfold patch_tag_to_current at h
  split at h
  · cases h
  · split at h
    · cases h
    · split at h
      · cases h
      · cases h
        exact set_instr_frame st _ _

theorem patch_instr_list_frame :
    ∀ (pos_list : List Nat) (st : Compiler) (target : Nat) (st1 : Compiler),
      patch_instr_list st pos_list target = .ok st1 →
      expr_frame st st1 ∧ stackOf st1 = stackOf st ∧
        st1.fn_context_stack = st.fn_context_stack := by
  intro pos_list
  induction pos_list with
  | nil =>
    intro st target st1 h
    unfold patch_instr_list at h
    cases h
    exact ⟨expr_frame_refl st, rfl, rfl⟩
  | cons p rest ih =>
    intro st target st1 h
    unfold patch_instr_list at h
    cases h1 : get_instr st p with
    | none => rw [h1] at h; cases h
    | some instr =>
      rw [h1] at h
      obtain ⟨hf1, hs1, hn1⟩ := set_instr_frame st p (patch_jump_target instr target)
      obtain ⟨hf2, hs2, hn2⟩ := ih _ target st1 h
      exact ⟨expr_frame_trans hf1 hf2, by rw [hs2, hs1], by rw [hn2, hn1]⟩

theorem patch_all_tag_frame {st : Compiler} {t target : Nat} {st1 : Compiler}
    (h : patch_all_tag st t target = .ok st1) :
    expr_frame st st1 ∧ stackOf st1 = stackOf st ∧
      st1.fn_context_stack = st.fn_context_stack := by
  unfold patch_all_tag at h
  cases h1 : get_tag st t with
  | none => rw [h1] at h; cases h
  | some pos_list =>
    rw [h1] at h
    exact patch_instr_list_frame pos_list st target st1 h

theorem compile_stack_loop_frame {st : Compiler} {st1 : Compiler}
    (h : compile_stack_loop st = .ok st1) :
    expr_frame st st1 ∧ stackOf st1 = stackOf st ∧
      st1.fn_context_stack = st.fn_context_stack := by
  unfold compile_stack_loop at h
  cases h
  refine ⟨(push_instr_frame _ _).1, (push_instr_frame _ _).2, ?_⟩
  simp [push_instr]

theorem compile_stack_cleanup_block_frame {st : Compiler} {f : FunctionContext}
    {st1 : Compiler} (h : compile_stack_cleanup_block st f = .ok st1) :
    expr_frame st st1 ∧ stackOf st1 = stackOf st ∧
      st1.fn_context_stack = st.fn_context_stack := by
  unfold compile_stack_cleanup_block at h
  cases h
  refine ⟨(push_instr_frame _ _).1, (push_instr_frame _ _).2, ?_⟩
  simp [push_instr]

theorem compile_stack_cleanup_return_frame {st : Compiler} {st1 : Compiler}
    (h : compile_stack_cleanup_return st = .ok st1) :
    expr_frame st st1 ∧ stackOf st1 = stackOf st ∧
      st1.fn_context_stack = st.fn_context_stack := by
  unfold compile_stack_cleanup_return at h
  cases h1 : cleanup_parent_scan st.fn_context_stack with
  | none => rw [h1] at h; cases h
  | some pr =>
    rw [h1] at h
    rcases obind_ok.mp h with ⟨rt, hrt, h⟩
    rcases obind_ok.mp h with ⟨rs, hrs, h⟩
    have hstep : ∀ step : Compiler × Nat,
        (step.1 = st ∨ ∃ i, step.1 = push_instr st i) →
        Outcome.ok (push_instr step.1 (.SUBU_I .sp step.2 .sp)) = .ok st1 →
        expr_frame st st1 ∧ stackOf st1 = stackOf st ∧
          st1.fn_context_stack = st.fn_context_stack := by
      intro step hcase hh
      cases hh
      rcases hcase with hc | ⟨i, hc⟩
      · rw [hc]
        refine ⟨(push_instr_frame _ _).1, (push_instr_frame _ _).2, ?_⟩
        simp [push_instr]
      · rw [hc]
        obtain ⟨hf1, hs1⟩ := push_instr_frame st i
        obtain ⟨hf2, hs2⟩ := push_instr_frame (push_instr st i) (.SUBU_I .sp step.2 .sp)
        refine ⟨expr_frame_trans hf1 hf2, by rw [hs2, hs1], ?_⟩
        simp [push_instr]
    refine hstep _ ?_ h
    cases rt with
    | bool => exact Or.inl rfl
    | int => exact Or.inl rfl
    | float => exact Or.inl rfl
    | void => exact Or.inl rfl
    | reference inner =>
      cases inner with
      | autoArray t => exact Or.inr ⟨_, rfl⟩
      | int => exact Or.inl rfl
      | float => exact Or.inl rfl
      | bool => exact Or.inl rfl
      | string => exact Or.inl rfl
      | void => exact Or.inl rfl
      | reference t => exact Or.inl rfl
      | array t sz => exact Or.inl rfl
      | other nm => exact Or.inl rfl
      | auto => exact Or.inl rfl
    | string => exact Or.inr ⟨_, rfl⟩
    | array t sz => exact Or.inr ⟨_, rfl⟩
    | other nm => exact Or.inr ⟨_, rfl⟩
    | auto => exact Or.inr ⟨_, rfl⟩
    | autoArray t => exact Or.inr ⟨_, rfl⟩

theorem compile_break_ok {st : Compiler} {u : Unit} {st1 : Compiler}
    (h : compile_break_stmt .brk st = .ok (u, st1)) :
    stmt_frame st st1 ∧ stackOf st1 = stackOf st ∧
      st1.fn_context_stack = st.fn_context_stack := by
  unfold compile_break_stmt at h
  rcases obind_ok.mp h with ⟨sta, hloop, h⟩
  rcases obind_ok.mp h with ⟨lc, hlc, hpush⟩
  cases hpush
  obtain ⟨hf1, hs1, hfn1⟩ := compile_stack_loop_frame hloop
  obtain ⟨hf2, hs2⟩ := set_tag_frame sta lc.tag_end
  obtain ⟨hf3, hs3⟩ := push_instr_frame (set_tag sta lc.tag_end) (.JMP lc.tag_end)
  refine ⟨expr_frame_to_stmt (expr_frame_trans hf1 (expr_frame_trans hf2 hf3)),
    by rw [hs3, hs2, hs1], ?_⟩
  simp [push_instr, set_tag, hfn1]

theorem compile_continue_ok {st : Compiler} {u : Unit} {st1 : Compiler}
    (h : compile_continue_stmt .cont st = .ok (u, st1)) :
    stmt_frame st st1 ∧ stackOf st1 = stackOf st ∧
      st1.fn_context_stack = st.fn_context_stack := by
  unfold compile_continue_stmt at h
  rcases obind_ok.mp h with ⟨sta, hloop, h⟩
  rcases obind_ok.mp h with ⟨lc, hlc, hpush⟩
  cases hpush
  obtain ⟨hf1, hs1, hfn1⟩ := compile_stack_loop_frame hloop
  obtain ⟨hf3, hs3⟩ := push_instr_frame sta (.JMP lc.pos_start)
  refine ⟨expr_frame_to_stmt (expr_frame_trans hf1 hf3), by rw [hs3, hs1], ?_⟩
  simp [push_instr, hfn1]

end Pgs

namespace Pgs

theorem compile_return_ok {e_opt : Option Expression} {st : Compiler} {u : Unit}
    {st1 : Compiler} (h : compile_return_stmt (.ret e_opt) st = .ok (u, st1)) :
    stmt_frame st st1 ∧ stackOf st1 = stackOf st + stmt_delta st (.ret e_opt) := by
  unfold compile_return_stmt at h
  rcases obind_ok.mp h with ⟨rty, hrty, h⟩
  rcases obind_ok.mp h with ⟨parent, hpar, h⟩
  rcases obind_ok.mp h with ⟨frt, hfrt, h⟩
  by_cases hne : frt ≠ rty
  · simp [hne] at h
  · simp only [hne, if_false] at h
    rcases obind_ok.mp h with ⟨r2, hr2, h⟩
    rcases obind_ok.mp h with ⟨st3, hclean, hpush⟩
    cases hpush
    obtain ⟨hfc, hsc, _⟩ := compile_stack_cleanup_return_frame hclean
    obtain ⟨hfr, hsr⟩ := push_instr_frame st3 .RET
    cases e_opt with
    | none =>
      cases hr2
      refine ⟨expr_frame_to_stmt (expr_frame_trans hfc hfr), ?_⟩
      rw [hsr, hsc]
      simp [stmt_delta]
    | some e =>
      rcases obind_ok.mp hr2 with ⟨r, hc, hmov⟩
      obtain ⟨hf1, hs1⟩ := compile_expr_delta e st r.1 r.2 hc
      have hstep : expr_frame r.2 r2.2 ∧ stackOf r2.2 = stackOf r.2 := by
        cases frt with
        | int =>
          rcases obind_ok.mp hmov with ⟨lr, hlr, hp⟩
          cases hp
          exact ⟨(push_instr_frame _ _).1, (push_instr_frame _ _).2⟩
        | float =>
          rcases obind_ok.mp hmov with ⟨lr, hlr, hp⟩
          cases hp
          exact ⟨(push_instr_frame _ _).1, (push_instr_frame _ _).2⟩
        | bool =>
          rcases obind_ok.mp hmov with ⟨lr, hlr, hp⟩
          cases hp
          exact ⟨(push_instr_frame _ _).1, (push_instr_frame _ _).2⟩
        | reference inner =>
          cases inner with
          | autoArray t =>
            cases hmov
            exact ⟨expr_frame_refl _, rfl⟩
          | int =>
            rcases obind_ok.mp hmov with ⟨lr, hlr, hp⟩
            cases hp
            exact ⟨(push_instr_frame _ _).1, (push_instr_frame _ _).2⟩
          | float =>
            rcases obind_ok.mp hmov with ⟨lr, hlr, hp⟩
            cases hp
            exact ⟨(push_instr_frame _ _).1, (push_instr_frame _ _).2⟩
          | bool =>
            rcases obind_ok.mp hmov with ⟨lr, hlr, hp⟩
            cases hp
            exact ⟨(push_instr_frame _ _).1, (push_instr_frame _ _).2⟩
          | string =>
            rcases obind_ok.mp hmov with ⟨lr, hlr, hp⟩
            cases hp
            exact ⟨(push_instr_frame _ _).1, (push_instr_frame _ _).2⟩
          | void =>
            rcases obind_ok.mp hmov with ⟨lr, hlr, hp⟩
            cases hp
            exact ⟨(push_instr_frame _ _).1, (push_instr_frame _ _).2⟩
          | reference t =>
            rcases obind_ok.mp hmov with ⟨lr, hlr, hp⟩
            cases hp
            exact ⟨(push_instr_frame _ _).1, (push_instr_frame _ _).2⟩
          | array t sz =>
            rcases obind_ok.mp hmov with ⟨lr, hlr, hp⟩
            cases hp
            exact ⟨(push_instr_frame _ _).1, (push_instr_frame _ _).2⟩
          | other nm =>
            rcases obind_ok.mp hmov with ⟨lr, hlr, hp⟩
            cases hp
            exact ⟨(push_instr_frame _ _).1, (push_instr_frame _ _).2⟩
          | auto =>
            rcases obind_ok.mp hmov with ⟨lr, hlr, hp⟩
            cases hp
            exact ⟨(push_instr_frame _ _).1, (push_instr_frame _ _).2⟩
        | string => cases hmov; exact ⟨expr_frame_refl _, rfl⟩
        | void => cases hmov; exact ⟨expr_frame_refl _, rfl⟩
        | array t sz => cases hmov; exact ⟨expr_frame_refl _, rfl⟩
        | other nm => cases hmov; exact ⟨expr_frame_refl _, rfl⟩
        | auto => cases hmov; exact ⟨expr_frame_refl _, rfl⟩
        | autoArray t => cases hmov; exact ⟨expr_frame_refl _, rfl⟩
      obtain ⟨hf2, hs2⟩ := hstep
      refine ⟨expr_frame_to_stmt (expr_frame_trans hf1 (expr_frame_trans hf2
        (expr_frame_trans hfc hfr))), ?_⟩
      rw [hsr, hsc, hs2, hs1]
      simp [stmt_delta]

theorem compile_var_decl_ok {nm : String} {dty : Ty} {ie : Expression} {st : Compiler}
    {u : Unit} {st1 : Compiler}
    (h : compile_var_decl_stmt (.variableDecl nm dty ie) st = .ok (u, st1)) :
    stmt_frame st st1 ∧ stackOf st1 = stackOf st + stmt_delta st (.variableDecl nm dty ie) := by
  unfold compile_var_decl_stmt at h
  rcases obind_ok.mp h with ⟨aty, hcheck, h⟩
  rcases obind_ok.mp h with ⟨vsz, hsz, h⟩
  rcases obind_ok.mp h with ⟨r, hc, h⟩
  rcases obind_ok.mp h with ⟨st3, hbranch, h⟩
  obtain ⟨hf1, hs1⟩ := compile_expr_delta ie st r.1 r.2 hc
  obtain ⟨hf2, hs2⟩ :
      expr_frame r.2 st3 ∧ stackOf st3 = stackOf r.2 + (if vsz ≤ 8 then vsz else 0) := by
    by_cases hle : vsz ≤ 8
    · rw [if_pos hle] at hbranch ⊢
      rcases obind_ok.mp hbranch with ⟨lr, hlr, hb⟩
      rcases obind_ok.mp hb with ⟨sti, hinc, hb⟩
      rcases obind_ok.mp hb with ⟨mi, hmi, hb⟩
      cases hb
      obtain ⟨hfi, hsi⟩ := inc_stack_ok hinc
      obtain ⟨hfp1, hsp1⟩ := push_instr_frame sti (new_inc_stack vsz)
      obtain ⟨hfp2, hsp2⟩ := push_instr_frame (push_instr sti (new_inc_stack vsz)) mi
      refine ⟨expr_frame_trans hfi (expr_frame_trans hfp1 hfp2), ?_⟩
      rw [hsp2, hsp1, hsi]
    · rw [if_neg hle] at hbranch ⊢
      cases hbranch
      exact ⟨expr_frame_refl _, by omega⟩
  cases hfn : st3.fn_context_stack with
  | nil => rw [hfn] at h; cases h
  | cons f rest =>
    rw [hfn] at h
    rcases obind_ok.mp h with ⟨f1, hset, hok⟩
    cases hok
    unfold FunctionContext.set_stack_var at hset
    obtain ⟨hvars⟩ : f1.stack_size = f.stack_size ∧
        f1.weak = f.weak ∧ f1.is_loop = f.is_loop := by
      split at hset
      · cases hset
      · cases hset
        exact ⟨rfl, rfl, rfl⟩
    refine ⟨?_, ?_⟩
    · refine stmt_frame_trans (expr_frame_to_stmt (expr_frame_trans hf1 hf2)) ?_
      refine ⟨rfl, rfl, ?_, ?_⟩
      · simp [hfn]
      · simp [hfn]
    · have hst1s : stackOf { st3 with fn_context_stack := f1 :: rest } = f1.stack_size := rfl
      rw [hst1s, hvars]
      have : stackOf st3 = f.stack_size := by simp [stackOf, hfn]
      rw [← this, hs2, hs1]
      simp only [stmt_delta, hcheck, hsz]
      omega

end Pgs

namespace Pgs

theorem compile_lhs_assign_frame {st : Compiler} {e : Expression} {res : Ty × Compiler}
    (h : compile_lhs_assign_expr st e = .ok res) :
    expr_frame st res.2 ∧ stackOf res.2 = stackOf st := by
  unfold compile_lhs_assign_expr at h
  split at h
  · rcases obind_ok.mp h with ⟨off, hoff, h⟩
    rcases obind_ok.mp h with ⟨r, hr, h⟩
    rcases obind_ok.mp h with ⟨ty, hty, hok⟩
    cases hok
    obtain ⟨hf1, hs1⟩ := get_next_register_frame hr
    obtain ⟨hf2, hs2⟩ := push_instr_frame r.2 (.SUBU_I .sp off.natAbs r.1)
    exact ⟨expr_frame_trans hf1 hf2, by rw [hs2, hs1]⟩
  · cases h

theorem compile_var_assign_ok {ae : Expression} {lr : Expression × Expression}
    (hd : assign_desugar ae = .ok lr) {st : Compiler} {u : Unit} {st1 : Compiler}
    (h : compile_var_assign_stmt_expr ae st = .ok (u, st1)) :
    stmt_frame st st1 ∧
    stackOf st1 = stackOf st + (8 + expr_delta (vars_view st) st.mod_context_stack lr.2) := by
  unfold compile_var_assign_stmt_expr at h
  rw [hd] at h
  rcases obind_ok.mp h with ⟨lr2, hlr2, h⟩
  cases hlr2
  rcases obind_ok.mp h with ⟨tr, htr, h⟩
  rcases obind_ok.mp h with ⟨lhs_reg, hlreg, h⟩
  rcases obind_ok.mp h with ⟨lhs_ptr_pos, hptr, h⟩
  rcases obind_ok.mp h with ⟨st3, hinc, h⟩
  rcases obind_ok.mp h with ⟨rty, hrty, h⟩
  split at h
  · cases h
  · rcases obind_ok.mp h with ⟨r, hc, h⟩
    rcases obind_ok.mp h with ⟨rhs_reg, hrreg, h⟩
    rcases obind_ok.mp h with ⟨lr3, hlr3, h⟩
    rcases obind_ok.mp h with ⟨curr, hcurr, h⟩
    rcases obind_ok.mp h with ⟨ai, hai, hok⟩
    cases hok
    obtain ⟨hf1, hs1⟩ := compile_lhs_assign_frame htr
    obtain ⟨hfp1, hsp1⟩ := push_instr_frame tr.2 (new_inc_stack 8)
    obtain ⟨hfp2, hsp2⟩ := push_instr_frame (push_instr tr.2 (new_inc_stack 8))
      (.MOVA_RA lhs_reg .sp (-8))
    obtain ⟨hfi, hsi⟩ := inc_stack_ok hinc
    obtain ⟨hf2, hs2⟩ := compile_expr_delta lr.2 st3 r.1 r.2 hc
    obtain ⟨hf3, hs3⟩ := get_next_register_frame hlr3
    obtain ⟨hfp3, hsp3⟩ := push_instr_frame lr3.2 (.MOVA_AR .sp
      (-((curr - lhs_ptr_pos : Nat) : Int)) lr3.1)
    obtain ⟨hfp4, hsp4⟩ := push_instr_frame
      (push_instr lr3.2 (.MOVA_AR .sp (-((curr - lhs_ptr_pos : Nat) : Int)) lr3.1)) ai
    have hframe03 : expr_frame st st3 :=
      expr_frame_trans hf1 (expr_frame_trans hfp1 (expr_frame_trans hfp2 hfi))
    rw [hframe03.2.2.1, hframe03.1] at hs2
    refine ⟨expr_frame_to_stmt (expr_frame_trans hframe03 (expr_frame_trans hf2
      (expr_frame_trans hf3 (expr_frame_trans hfp3 hfp4)))), ?_⟩
    rw [hsp4, hsp3, hs3, hs2, hsi, hsp2, hsp1, hs1]
    omega

theorem compile_expr_stmt_ok {e : Expression} {st : Compiler} {u : Unit} {st1 : Compiler}
    (h : compile_expr_stmt (.expression e) st = .ok (u, st1)) :
    stmt_frame st st1 ∧ stackOf st1 = stackOf st + stmt_delta st (.expression e) := by
  unfold compile_expr_stmt at h
  cases e with
  | call fn_name args =>
    obtain ⟨hf, hs⟩ := compile_expr_delta (.call fn_name args) st u st1 h
    exact ⟨expr_frame_to_stmt hf, by rw [hs]; simp [stmt_delta]⟩
  | assign l r =>
    obtain ⟨hf, hs⟩ := compile_var_assign_ok
      (show assign_desugar (.assign l r) = .ok (l, r) from rfl) h
    exact ⟨hf, by rw [hs]; simp [stmt_delta, assign_desugar]⟩
  | addAssign l r =>
    obtain ⟨hf, hs⟩ := compile_var_assign_ok
      (show assign_desugar (.addAssign l r) = .ok (l, .addition l r) from rfl) h
    exact ⟨hf, by rw [hs]; simp [stmt_delta, assign_desugar]⟩
  | subAssign l r =>
    obtain ⟨hf, hs⟩ := compile_var_assign_ok
      (show assign_desugar (.subAssign l r) = .ok (l, .addition l r) from rfl) h
    exact ⟨hf, by rw [hs]; simp [stmt_delta, assign_desugar]⟩
  | mulAssign l r =>
    obtain ⟨hf, hs⟩ := compile_var_assign_ok
      (show assign_desugar (.mulAssign l r) = .ok (l, .addition l r) from rfl) h
    exact ⟨hf, by rw [hs]; simp [stmt_delta, assign_desugar]⟩
  | divAssign l r =>
    obtain ⟨hf, hs⟩ := compile_var_assign_ok
      (show assign_desugar (.divAssign l r) = .ok (l, .addition l r) from rfl) h
    exact ⟨hf, by rw [hs]; simp [stmt_delta, assign_desugar]⟩
  | intLiteral v => cases h
  | floatLiteral v => cases h
  | boolLiteral v => cases h
  | stringLiteral v => cases h
  | «variable» nm => cases h
  | addition l r => cases h
  | subtraction l r => cases h
  | multiplication l r => cases h
  | division l r => cases h
  | lessThan l r => cases h
  | greaterThan l r => cases h
  | lessThanEquals l r => cases h
  | greaterThanEquals l r => cases h
  | equals l r => cases h
  | notEquals l r => cases h
  | not e2 => cases h
  | and l r => cases h
  | or l r => cases h

end Pgs

namespace Pgs

theorem compile_stmt_list_frame {l : List Statement} (hall : ∀ s ∈ l, StmtOk s) :
    ∀ st r, compile_stmt_list l st = .ok r → stmt_frame st r.2 := by
  induction l with
  | nil =>
    intro st r h
    unfold compile_stmt_list at h
    cases h
    exact stmt_frame_refl st
  | cons s rest ih =>
    intro st r h
    unfold compile_stmt_list at h
    rcases obind_ok.mp h with ⟨r1, h1, h2⟩
    obtain ⟨hf, _⟩ := hall s (List.mem_cons_self s rest) st r1.1 r1.2 h1
    exact stmt_frame_trans hf
      (ih (fun x hx => hall x (List.mem_cons_of_mem s hx)) r1.2 r h2)

/-- A weak block (push a context, compile the statement list, pop)
restores the compiler state's context stacks and stack size exactly. -/
theorem weak_block_restore {stX : Compiler} {w : FunctionContext} {l : List Statement}
    (hall : ∀ s ∈ l, StmtOk s) {r2 : Unit × Compiler}
    (hbody : compile_stmt_list l (push_function_context stX w) = .ok r2)
    {p : FunctionContext × Compiler} (hpop : pop_function_context r2.2 = .ok p) :
    expr_frame stX p.2 ∧ stackOf p.2 = stackOf stX := by
  have hb := compile_stmt_list_frame hall (push_function_context stX w) r2 hbody
  unfold pop_function_context at hpop
  cases hfn : r2.2.fn_context_stack with
  | nil => rw [hfn] at hpop; cases hpop
  | cons w2 rest2 =>
    rw [hfn] at hpop
    cases hpop
    have hmods : r2.2.mod_context_stack = stX.mod_context_stack := by
      have := hb.1
      simpa [push_function_context] using this
    have hloops : r2.2.loop_ctx_stack = stX.loop_ctx_stack := by
      have := hb.2.1
      simpa [push_function_context] using this
    have htail : rest2 = stX.fn_context_stack := by
      have := hb.2.2.1
      rw [hfn] at this
      simpa [push_function_context] using this
    refine ⟨⟨hmods, hloops, ?_, ?_, ?_⟩, ?_⟩
    · simp [vars_view, htail]
    · simp [htail]
    · simp [htail]
    · simp [stackOf, htail]

theorem compile_else_ifs_ok :
    ∀ (l : List (Expression × List Statement)),
      (∀ p ∈ l, ∀ s ∈ p.2, StmtOk s) →
      ∀ te tn (st : Compiler) (res : Nat × Compiler),
        compile_else_ifs l te tn st = .ok res →
        expr_frame st res.2 ∧
        stackOf res.2 = stackOf st +
          (l.map (fun p => expr_delta (vars_view st) st.mod_context_stack p.1)).sum := by
  intro l
  induction l with
  | nil =>
    intro _ te tn st res h
    unfold compile_else_ifs at h
    cases h
    exact ⟨expr_frame_refl st, by simp⟩
  | cons p rest ih =>
    intro hall te tn st res h
    obtain ⟨cond, body⟩ := p
    unfold compile_else_ifs at h
    rcases obind_ok.mp h with ⟨st1, hpatch, h⟩
    rcases obind_ok.mp h with ⟨ety, hcheck, h⟩
    by_cases hty : ety ≠ Ty.bool
    · simp [hty] at h
    · simp only [hty, if_false] at h
      rcases obind_ok.mp h with ⟨r, hc, h⟩
      rcases obind_ok.mp h with ⟨last_reg, hlast, h⟩
      rcases obind_ok.mp h with ⟨fn_ctx, hfc, h⟩
      rcases obind_ok.mp h with ⟨r2, hbody, h⟩
      rcases obind_ok.mp h with ⟨popped, hpop, h⟩
      rcases obind_ok.mp h with ⟨st5, hclean, hrec⟩
      obtain ⟨hfp, hsp, _⟩ := patch_tag_to_current_frame hpatch
      obtain ⟨hf1, hs1⟩ := compile_expr_delta cond st1 r.1 r.2 hc
      rw [hfp.2.2.1, hfp.1] at hs1
      obtain ⟨hfg, hsg⟩ := generate_uid_frame r.2
      obtain ⟨hft, hst⟩ := set_tag_frame (generate_uid r.2).2 (generate_uid r.2).1
      obtain ⟨hfj, hsj⟩ := push_instr_frame
        (set_tag (generate_uid r.2).2 (generate_uid r.2).1)
        (.JMPF last_reg (generate_uid r.2).1)
      obtain ⟨hfw, hsw⟩ := weak_block_restore
        (hall (cond, body) (List.mem_cons_self _ rest)) hbody hpop
      obtain ⟨hfcl, hscl, _⟩ := compile_stack_cleanup_block_frame hclean
      obtain ⟨hft2, hst2⟩ := set_tag_frame st5 te
      obtain ⟨hfj2, hsj2⟩ := push_instr_frame (set_tag st5 te) (.JMP te)
      have hF : expr_frame st (push_instr (set_tag st5 te) (.JMP te)) :=
        expr_frame_trans hfp (expr_frame_trans hf1 (expr_frame_trans hfg
          (expr_frame_trans hft (expr_frame_trans hfj (expr_frame_trans hfw
            (expr_frame_trans hfcl (expr_frame_trans hft2 hfj2)))))))
      obtain ⟨hfr, hsr⟩ := ih (fun x hx => hall x (List.mem_cons_of_mem _ hx))
        te (generate_uid r.2).1 _ res hrec
      rw [hF.2.2.1, hF.1] at hsr
      refine ⟨expr_frame_trans hF hfr, ?_⟩
      rw [hsr, hsj2, hst2, hscl, hsw, hsj, hst, hsg, hs1, hsp]
      simp
      omega

set_option maxHeartbeats 1000000 in
theorem compile_if_ok {c : Expression} {b : List Statement}
    {ei : Option (List (Expression × List Statement))} {el : Option (List Statement)}
    (hallb : ∀ s ∈ b, StmtOk s)
    (hallei : ∀ l, ei = some l → ∀ p ∈ l, ∀ s ∈ p.2, StmtOk s)
    (hallel : ∀ l, el = some l → ∀ s ∈ l, StmtOk s)
    {st : Compiler} {u : Unit} {st1 : Compiler}
    (h : compile_if_stmt c b ei el st = .ok (u, st1)) :
    stmt_frame st st1 ∧ stackOf st1 = stackOf st + stmt_delta st (.ifStmt c b ei el) := by
  unfold compile_if_stmt at h
  rcases obind_ok.mp h with ⟨ety, hcheck, h⟩
  by_cases hty : ety ≠ Ty.bool
  · simp [hty] at h
  · simp only [hty, if_false] at h
    rcases obind_ok.mp h with ⟨r, hc, h⟩
    rcases obind_ok.mp h with ⟨last_reg, hlast, h⟩
    rcases obind_ok.mp h with ⟨fn_ctx, hfc, h⟩
    rcases obind_ok.mp h with ⟨r2, hbody, h⟩
    rcases obind_ok.mp h with ⟨popped, hpop, h⟩
    rcases obind_ok.mp h with ⟨st4, hclean, h⟩
    rcases obind_ok.mp h with ⟨eires, hei, h⟩
    rcases obind_ok.mp h with ⟨st9, hel, h⟩
    rcases obind_ok.mp h with ⟨st10, hpatch2, hend⟩
    cases hend
    obtain ⟨hfg1, hsg1⟩ := generate_uid_frame st
    obtain ⟨hfg2, hsg2⟩ := generate_uid_frame (generate_uid st).2
    have hFuid : expr_frame st (generate_uid (generate_uid st).2).2 :=
      expr_frame_trans hfg1 hfg2
    obtain ⟨hf1, hs1⟩ := compile_expr_delta c (generate_uid (generate_uid st).2).2 r.1 r.2 hc
    rw [hFuid.2.2.1, hFuid.1] at hs1
    obtain ⟨hft, hst⟩ := set_tag_frame r.2 (generate_uid (generate_uid st).2).1
    obtain ⟨hfj, hsj⟩ := push_instr_frame (set_tag r.2 (generate_uid (generate_uid st).2).1)
      (.JMPF last_reg (generate_uid (generate_uid st).2).1)
    obtain ⟨hfw, hsw⟩ := weak_block_restore hallb hbody hpop
    obtain ⟨hfcl, hscl, _⟩ := compile_stack_cleanup_block_frame hclean
    obtain ⟨hft2, hst2⟩ := set_tag_frame st4 (generate_uid st).1
    obtain ⟨hfj2, hsj2⟩ := push_instr_frame (set_tag st4 (generate_uid st).1)
      (.JMP (generate_uid st).1)
    have hF6 : expr_frame st (push_instr (set_tag st4 (generate_uid st).1)
        (.JMP (generate_uid st).1)) :=
      expr_frame_trans hFuid (expr_frame_trans hf1 (expr_frame_trans hft
        (expr_frame_trans hfj (expr_frame_trans hfw (expr_frame_trans hfcl
          (expr_frame_trans hft2 hfj2))))))
    have hS6 : stackOf (push_instr (set_tag st4 (generate_uid st).1)
        (.JMP (generate_uid st).1)) =
        stackOf st + expr_delta (vars_view st) st.mod_context_stack c := by
      rw [hsj2, hst2, hscl, hsw, hsj, hst, hs1, hsg2, hsg1]
    obtain ⟨hfei, hsei⟩ :
        expr_frame (push_instr (set_tag st4 (generate_uid st).1)
          (.JMP (generate_uid st).1)) eires.2 ∧
        stackOf eires.2 = stackOf (push_instr (set_tag st4 (generate_uid st).1)
          (.JMP (generate_uid st).1)) +
          else_ifs_delta (vars_view st) st.mod_context_stack ei := by
      cases hopt : ei with
      | some l =>
        rw [hopt] at hei
        obtain ⟨hfx, hsx⟩ := compile_else_ifs_ok l (hallei l hopt) _ _ _ _ hei
        rw [hF6.2.2.1, hF6.1] at hsx
        exact ⟨hfx, by rw [hsx]; simp [else_ifs_delta]⟩
      | none =>
        rw [hopt] at hei
        cases hei
        exact ⟨expr_frame_refl _, by simp [else_ifs_delta]⟩
    obtain ⟨hfel, hsel⟩ : expr_frame eires.2 st9 ∧ stackOf st9 = stackOf eires.2 := by
      cases hopt : el with
      | some l =>
        rw [hopt] at hel
        rcases obind_ok.mp hel with ⟨st7, hpatch, hel⟩
        rcases obind_ok.mp hel with ⟨fn_ctx2, hfc2, hel⟩
        rcases obind_ok.mp hel with ⟨r3, hbody2, hel⟩
        rcases obind_ok.mp hel with ⟨popped2, hpop2, hclean2⟩
        obtain ⟨hfp, hsp, _⟩ := patch_tag_to_current_frame hpatch
        obtain ⟨hfw2, hsw2⟩ := weak_block_restore (hallel l hopt) hbody2 hpop2
        obtain ⟨hfcl2, hscl2, _⟩ := compile_stack_cleanup_block_frame hclean2
        exact ⟨expr_frame_trans hfp (expr_frame_trans hfw2 hfcl2),
          by rw [hscl2, hsw2, hsp]⟩
      | none =>
        rw [hopt] at hel
        obtain ⟨hfp, hsp, _⟩ := patch_tag_to_current_frame hel
        exact ⟨hfp, hsp⟩
    obtain ⟨hfp2, hsp2, _⟩ := patch_all_tag_frame hpatch2
    refine ⟨expr_frame_to_stmt (expr_frame_trans hF6 (expr_frame_trans hfei
      (expr_frame_trans hfel hfp2))), ?_⟩
    rw [hsp2, hsel, hsei, hS6]
    simp [stmt_delta]
    omega

set_option maxHeartbeats 1000000 in
theorem compile_while_ok {c : Expression} {b : List Statement}
    (hallb : ∀ s ∈ b, StmtOk s)
    {st : Compiler} {u : Unit} {st1 : Compiler}
    (h : compile_while_stmt c b st = .ok (u, st1)) :
    stmt_frame st st1 ∧ stackOf st1 = stackOf st + stmt_delta st (.whileStmt c b) := by
  unfold compile_while_stmt at h
  rcases obind_ok.mp h with ⟨cur, hcur, h⟩
  rcases obind_ok.mp h with ⟨ety, hcheck, h⟩
  by_cases hty : ety ≠ Ty.bool
  · simp [hty] at h
  · simp only [hty, if_false] at h
    rcases obind_ok.mp h with ⟨r, hc, h⟩
    rcases obind_ok.mp h with ⟨last_reg, hlast, h⟩
    rcases obind_ok.mp h with ⟨r2, hbody, h⟩
    rcases obind_ok.mp h with ⟨r3, hcont, h⟩
    rcases obind_ok.mp h with ⟨lp, hlp, h⟩
    rcases obind_ok.mp h with ⟨st5, hpatch, h⟩
    rcases obind_ok.mp h with ⟨popped, hpop, hend⟩
    cases hend
    obtain ⟨u2, st2b⟩ := r2
    obtain ⟨u3, st3b⟩ := r3
    obtain ⟨hfg, hsg⟩ :=
      generate_uid_frame (push_function_context st (FunctionContext.new_loop cur))
    obtain ⟨hF1, _⟩ := compile_expr_delta c _ r.1 r.2 hc
    obtain ⟨hF2, _⟩ := set_tag_frame r.2
      (generate_uid (push_function_context st (FunctionContext.new_loop cur))).1
    obtain ⟨hF3, _⟩ := push_instr_frame
      (set_tag r.2
        (generate_uid (push_function_context st (FunctionContext.new_loop cur))).1)
      (.JMPF last_reg
        (generate_uid (push_function_context st (FunctionContext.new_loop cur))).1)
    have hF4 := compile_stmt_list_frame hallb _ (u2, st2b) hbody
    obtain ⟨hF5, _, _⟩ := compile_continue_ok hcont
    have hFr3 : stmt_frame
        (push_loop_context
          (generate_uid (push_function_context st (FunctionContext.new_loop cur))).2
          { pos_start :=
              get_current_offset (push_function_context st (FunctionContext.new_loop cur)),
            tag_end :=
              (generate_uid (push_function_context st (FunctionContext.new_loop cur))).1 })
        st3b :=
      stmt_frame_trans
        (expr_frame_to_stmt (expr_frame_trans hF1 (expr_frame_trans hF2 hF3)))
        (stmt_frame_trans hF4 hF5)
    have hloops3 : st3b.loop_ctx_stack =
        { pos_start :=
            get_current_offset (push_function_context st (FunctionContext.new_loop cur)),
          tag_end :=
            (generate_uid (push_function_context st (FunctionContext.new_loop cur))).1 } ::
          st.loop_ctx_stack := by
      have h1 := hFr3.2.1
      simp only [push_loop_context] at h1
      rw [h1, hfg.2.1]
      simp [push_function_context]
    have hmods3 : st3b.mod_context_stack = st.mod_context_stack := by
      have h1 := hFr3.1
      simp only [push_loop_context] at h1
      rw [h1, hfg.1]
      simp [push_function_context]
    have htail3 : st3b.fn_context_stack.tail = st.fn_context_stack := by
      have h1 := hFr3.2.2.1
      simp only [push_loop_context] at h1
      rw [h1, hfg.2.2.2.1]
      simp [push_function_context]
    have hlen3 : st3b.fn_context_stack.length = st.fn_context_stack.length + 1 := by
      have h1 := hFr3.2.2.2
      simp only [push_loop_context] at h1
      rw [h1, hfg.2.2.2.2]
      simp [push_function_context]
    unfold pop_loop_context at hlp
    rw [hloops3] at hlp
    cases hlp
    obtain ⟨hF6, hs6, hfn6⟩ := patch_all_tag_frame hpatch
    have hmods5 : st5.mod_context_stack = st.mod_context_stack := by
      rw [hF6.1]; simpa using hmods3
    have hloops5 : st5.loop_ctx_stack = st.loop_ctx_stack := by
      rw [hF6.2.1]
    have htail5 : st5.fn_context_stack.tail = st.fn_context_stack := by
      rw [hfn6]; simpa using htail3
    have hlen5 : st5.fn_context_stack.length = st.fn_context_stack.length + 1 := by
      rw [hfn6]; simpa using hlen3
    unfold pop_function_context at hpop
    cases hfn5 : st5.fn_context_stack with
    | nil => rw [hfn5] at hpop; cases hpop
    | cons hd tl =>
      rw [hfn5] at hpop
      cases hpop
      have htl : tl = st.fn_context_stack := by
        rw [hfn5] at htail5
        simpa using htail5
      refine ⟨⟨by simpa using hmods5, by simpa using hloops5, ?_, ?_⟩, ?_⟩
      · simp [htl]
      · simp [htl]
      · simp only [stackOf, htl]
        simp [stmt_delta]

theorem stmt_ok_sized : ∀ (n : Nat) (s : Statement), sizeOf s ≤ n → StmtOk s := by
  intro n
  induction n with
  | zero =>
    intro s hs
    exfalso
    cases s <;> simp at hs
  | succ n ih =>
    intro s hs st u st1 h
    cases s with
    | variableDecl nm t e =>
      simp only [compile_stmt] at h
      exact compile_var_decl_ok h
    | expression e =>
      simp only [compile_stmt] at h
      exact compile_expr_stmt_ok h
    | ret e =>
      simp only [compile_stmt] at h
      exact compile_return_ok h
    | cont =>
      simp only [compile_stmt] at h
      obtain ⟨hf, hs1, _⟩ := compile_continue_ok h
      exact ⟨hf, by rw [hs1]; simp [stmt_delta]⟩
    | brk =>
      simp only [compile_stmt] at h
      obtain ⟨hf, hs1, _⟩ := compile_break_ok h
      exact ⟨hf, by rw [hs1]; simp [stmt_delta]⟩
    | ifStmt c b ei el =>
      simp only [compile_stmt] at h
      have hallb : ∀ x ∈ b, StmtOk x := fun x hmem =>
        ih x (by have := List.sizeOf_lt_of_mem hmem; simp at hs; omega)
      have hallei : ∀ l, ei = some l → ∀ p ∈ l, ∀ x ∈ p.2, StmtOk x := by
        intro l hl p hp x hmem
        subst hl
        have h1 := List.sizeOf_lt_of_mem hp
        have h2 := List.sizeOf_lt_of_mem hmem
        have h3 : sizeOf p.2 ≤ sizeOf p := by
          obtain ⟨p1, p2⟩ := p
          simp
        apply ih x
        simp at hs
        omega
      have hallel : ∀ l, el = some l → ∀ x ∈ l, StmtOk x := by
        intro l hl x hmem
        subst hl
        have h1 := List.sizeOf_lt_of_mem hmem
        apply ih x
        simp at hs
        omega
      exact compile_if_ok hallb hallei hallel h
    | whileStmt c b =>
      simp only [compile_stmt] at h
      have hallb : ∀ x ∈ b, StmtOk x := fun x hmem =>
        ih x (by have := List.sizeOf_lt_of_mem hmem; simp at hs; omega)
      exact compile_while_ok hallb h

theorem compile_stmt_delta (s : Statement) : StmtOk s :=
  stmt_ok_sized (sizeOf s) s (Nat.le_refl _)

/-! Claim-level theorems. -/

/-- C3: contrary to the specified per-operator desugaring, every compound
assignment arm builds its replacement right-hand side with the `Addition`
constructor: `v -= e`, `v *= e` and `v /= e` all lower as `v = v + e`;
the compound path is then identical to the plain-assignment path on the
desugared pair. -/
theorem compound_assign_desugars_all_to_addition (l r : Expression) :
    assign_desugar (.subAssign l r) = .ok (l, .addition l r) ∧
    assign_desugar (.mulAssign l r) = .ok (l, .addition l r) ∧
    assign_desugar (.divAssign l r) = .ok (l, .addition l r) ∧
    assign_desugar (.addAssign l r) = .ok (l, .addition l r) ∧
    (∀ st, compile_var_assign_stmt_expr (.subAssign l r) st =
      compile_var_assign_stmt_expr (.assign l (.addition l r)) st) :=
  ⟨rfl, rfl, rfl, rfl, fun _ => rfl⟩

/-- C8: for a variable recorded in the current function context at
position `pos` with `pos < stack_size`, `get_sp_offset_of_var` returns
exactly `-(stack_size - pos)`, a strictly negative offset (the slot lies
below SP). -/
theorem sp_offset_of_recorded_var {st : Compiler} {f : FunctionContext}
    {rest : List FunctionContext} {name : String} {ty : Ty} {pos : Int}
    (hfn : st.fn_context_stack = f :: rest)
    (hvar : lookup_assoc f.vars name = some (ty, pos))
    (hpos : pos < (f.stack_size : Int)) :
    get_sp_offset_of_var st name = .ok (-((f.stack_size : Int) - pos)) ∧
    -((f.stack_size : Int) - pos) < 0 := by
  unfold get_sp_offset_of_var get_current_function
  rw [hfn]
  simp only [obind]
  unfold FunctionContext.get_var_pos
  rw [hvar]
  simp only [obind]
  rw [if_pos (by omega)]
  exact ⟨rfl, by omega⟩

theorem sp_offset_of_recorded_var_witness :
    get_sp_offset_of_var c8_demo "y" = .ok (-((12 : Int) - 4)) ∧
    -((12 : Int) - 4) < 0 :=
  @sp_offset_of_recorded_var c8_demo
    ⟨12, [("y", Ty.float, 4)], 0, false, false, Ty.void⟩ [] "y" Ty.float 4
    rfl rfl (by decide)

theorem resolve_walk_append (pre rest : List String) :
    ∀ o : Option ModuleContext,
      resolve_walk o (pre ++ rest) =
        obind (resolve_walk o pre) (fun o1 => resolve_walk o1 rest) := by
  induction pre with
  | nil => intro o; simp [resolve_walk, obind]
  | cons s pre ih =>
    intro o
    cases o with
    | none => simp [resolve_walk, obind]
    | some m =>
      simp only [List.cons_append, resolve_walk]
      exact ih _

theorem resolve_qualified_from_panics {st : Compiler} {name : String}
    {m m2 : ModuleContext} {first seg : String}
    {mids mids2 pre post : List String}
    (hpre : mids2 = pre ++ seg :: post)
    (hwalk : resolve_walk (some m) pre = .ok (some m2))
    (hmiss : lookup_assoc m2.modules seg = none) :
    resolve_qualified_from st name mids2 (first :: mids) m = .panic := by
  unfold resolve_qualified_from
  rw [hpre, resolve_walk_append, hwalk]
  simp only [obind, resolve_walk]
  rw [hmiss]
  cases post with
  | nil =>
    simp only [resolve_walk, obind]
    cases hl : (first :: mids).getLast? with
    | none => simp at hl
    | some lp => simp
  | cons q qs => simp [resolve_walk, obind]

/-- C10: a qualified call whose path goes through a missing intermediate
module makes `resolve_function` panic (the source `unwrap`s the module
option) instead of returning an `UnknownFunction`/`UnknownModule` error:
`pre` is the successfully walked prefix and `seg` the missing segment.
Both start modules are covered: a `root::` path walks from the root
module, any other non-`super` path from the current one (`super::` never
reaches the walk: the source returns `Unimplemented` first). -/
theorem resolve_function_panics_on_missing_module {st : Compiler}
    {m m2 : ModuleContext} {name first seg : String}
    {mids pre post : List String}
    (hsep : contains_path_sep name.data = true)
    (hsplit : split_path name = first :: mids)
    (hsuper : first ≠ "super")
    (hstart :
      (first = "root" ∧ get_root_module st = .ok m ∧
        mids.dropLast = pre ++ seg :: post) ∨
      (first ≠ "root" ∧ (∃ ms, st.mod_context_stack = m :: ms) ∧
        (first :: mids).dropLast = pre ++ seg :: post))
    (hwalk : resolve_walk (some m) pre = .ok (some m2))
    (hmiss : lookup_assoc m2.modules seg = none) :
    resolve_function st name = .panic := by
  unfold resolve_function
  have hf : import_fuel st =
      (st.mod_context_stack.map (fun mc => mc.imports.length)).sum + 1 := rfl
  rw [hf]
  simp only [resolve_function_fuel, hsep, if_true]
  rw [hsplit]
  unfold resolve_qualified
  rcases hstart with ⟨hr, hroot, hpre⟩ | ⟨hr, ⟨ms, hmods⟩, hpre⟩
  · simp only [if_pos hr]
    rw [hroot]
    simp only [obind]
    exact resolve_qualified_from_panics (by simpa using hpre) hwalk hmiss
  · simp only [if_neg hr, if_neg hsuper]
    unfold get_current_module
    rw [hmods]
    simp only [obind]
    exact resolve_qualified_from_panics hpre hwalk hmiss

theorem resolve_function_panics_witness :
    resolve_function c10_demo "a::f" = .panic ∧
    resolve_function c10_demo "root::a::f" = .panic :=
  ⟨@resolve_function_panics_on_missing_module c10_demo (ModuleContext.new "root")
      (ModuleContext.new "root") "a::f" "a" "a" ["f"] [] [] rfl rfl (by decide)
      (Or.inr ⟨by decide, ⟨[], rfl⟩, rfl⟩) rfl rfl,
   @resolve_function_panics_on_missing_module c10_demo (ModuleContext.new "root")
      (ModuleContext.new "root") "root::a::f" "root" "a" ["a", "f"] [] [] rfl rfl
      (by decide) (Or.inl ⟨rfl, rfl, rfl⟩) rfl rfl⟩

theorem stack_loop_go_spec : ∀ (ctxs : List FunctionContext) (acc : Nat),
    stack_loop_go ctxs acc = acc + break_unwind_amount ctxs := by
  intro ctxs
  induction ctxs with
  | nil => intro acc; simp [stack_loop_go, break_unwind_amount]
  | cons c rest ih =>
    intro acc
    simp only [stack_loop_go, break_unwind_amount]
    by_cases hl : c.is_loop = true
    · simp [hl]
    · simp [hl, ih]
      omega

/-- C5: a `Break` inside a loop emits exactly one `SUBU_I` whose amount
is the sum of the `stack_size` fields of every context from the
innermost outward up to and including the first context flagged
`is_loop`, followed by a `JMP` to the loop's end tag. -/
theorem break_unwind_amount_correct {st : Compiler} {lc : LoopContext}
    {lrest : List LoopContext} (hloop : st.loop_ctx_stack = lc :: lrest) :
    ∃ st1, compile_break_stmt .brk st = .ok ((), st1) ∧
      st1.instrs = st.instrs ++
        [.SUBU_I .sp (break_unwind_amount st.fn_context_stack) .sp,
         .JMP lc.tag_end] := by
  unfold compile_break_stmt compile_stack_loop
  simp only [obind]
  unfold get_current_loop
  rw [show (push_instr st (new_dec_stack (stack_loop_go st.fn_context_stack 0))).loop_ctx_stack
      = st.loop_ctx_stack from rfl, hloop]
  simp only [obind]
  refine ⟨_, rfl, ?_⟩
  simp [push_instr, set_tag, new_dec_stack, stack_loop_go_spec]

theorem break_unwind_amount_correct_witness :
    ∃ st1, compile_break_stmt .brk c5_demo = .ok ((), st1) ∧
      st1.instrs = c5_demo.instrs ++
        [.SUBU_I .sp (break_unwind_amount c5_demo.fn_context_stack) .sp,
         .JMP 5] :=
  @break_unwind_amount_correct c5_demo ⟨3, 5⟩ [] rfl

unseal compile_stmt compile_expr compile_bin_op compile_call_expr compile_call_args in
/-- C1: compiling the expression statement `x = 1` in a context with 8
bytes of locals succeeds but leaves `stack_size` at 16, 8 bytes above its
pre-statement value (the saved target pointer's `inc_stack 8` is never
undone), contradicting the stack-restoration invariant claimed for
non-declaration statements. -/
theorem assignment_statement_stack_leak :
    outcome_ok (compile_stmt
      (.expression (.assign (.«variable» "x") (.intLiteral 1))) c1_demo) = true ∧
    stack_after (compile_stmt
      (.expression (.assign (.«variable» "x") (.intLiteral 1))) c1_demo) =
      stackOf c1_demo + 8 ∧
    stackOf c1_demo = 8 :=
  ⟨rfl, rfl, rfl⟩

unseal compile_expr compile_bin_op compile_call_expr compile_call_args in
/-- C2: compiling `f(42)` for `f(a: int) -> int` (uid 7) emits, after the
`CALL`, a `MOVN_A` and then `SUBU_I SP, 0, SP`: the stack is shrunk by 0,
not by the 8 bytes of arguments, and the net stack growth is 16
(arguments plus return value), not the claimed `ret_size` 8. -/
theorem call_expr_retains_arguments :
    outcome_ok (compile_expr (.call "f" [.intLiteral 42]) c2_demo) = true ∧
    stack_after (compile_expr (.call "f" [.intLiteral 42]) c2_demo) =
      stackOf c2_demo + 16 ∧
    instrs_after (compile_expr (.call "f" [.intLiteral 42]) c2_demo) =
      [.LDI 42 (.r 0), .ADDU_I .sp 8 .sp, .MOVI_RA (.r 0) .sp (-8),
       .CALL 7, .MOVN_A .sp (-8) .sp (-8) 8, .SUBU_I .sp 0 .sp] ∧
    ¬ stack_after (compile_expr (.call "f" [.intLiteral 42]) c2_demo) =
      stackOf c2_demo + 8 :=
  ⟨rfl, rfl, rfl, by decide⟩

unseal compile_stmt compile_if_stmt compile_else_ifs compile_while_stmt compile_stmt_list compile_expr compile_bin_op compile_call_expr compile_call_args in
/-- C9 counterexample: an `if` with an `int`-typed condition fails with
`TypeMismatch(int, bool)` (got first), while the same condition in a
`while` fails with `TypeMismatch(bool, int)` (expected first): the claimed
uniform expected-first payload is wrong for `if`. -/
theorem if_condition_mismatch_payload_reversed :
    compile_stmt (.ifStmt (.intLiteral 1) [] none none) c9_demo =
      .err (.type_mismatch .int .bool) ∧
    compile_stmt (.whileStmt (.intLiteral 1) []) c9_demo =
      .err (.type_mismatch .bool .int) ∧
    Ty.int ≠ Ty.bool :=
  ⟨rfl, rfl, by decide⟩

/-- C4 counterexample: the standalone Checker types `0 == 1` as `int`
(the operand type), not `Bool`. -/
theorem checker_comparison_returns_operand_type :
    checker_check_expr_type (fun _ => none)
      (.equals (.intLiteral 0) (.intLiteral 1)) = .ok .int ∧
    Ty.int ≠ Ty.bool :=
  ⟨rfl, by decide⟩

/-- C4 (amended): for every comparison constructor, the compiler's
`check_expr_type` requires agreeing operand types and returns `Bool`
(`TypeMismatch(lhs, rhs)` otherwise), but the standalone Checker's
`check_expr_type` returns the operand type itself, not `Bool` (its
payload-less `TypeMismatch` on disagreement). -/
theorem comparison_typing_amended {mk : Expression → Expression → Expression}
    (hmk : mk ∈ cmp_ctors) (st : Compiler) (tv : String → Option Ty)
    {lhs rhs : Expression} {t1 t2 t1c t2c : Ty}
    (h1 : check_expr_type st lhs = .ok t1) (h2 : check_expr_type st rhs = .ok t2)
    (h1c : checker_check_expr_type tv lhs = .ok t1c)
    (h2c : checker_check_expr_type tv rhs = .ok t2c) :
    (t1 = t2 → check_expr_type st (mk lhs rhs) = .ok Ty.bool) ∧
    (t1 ≠ t2 → check_expr_type st (mk lhs rhs) = .err (.type_mismatch t1 t2)) ∧
    (t1c = t2c → checker_check_expr_type tv (mk lhs rhs) = .ok t1c) ∧
    (t1c ≠ t2c → checker_check_expr_type tv (mk lhs rhs) = .error .typeMismatch) := by
  simp only [cmp_ctors, List.mem_cons, List.not_mem_nil, or_false] at hmk
  rcases hmk with h | h | h | h | h | h <;> subst h <;>
    refine ⟨fun he => ?_, fun hne => ?_, fun he => ?_, fun hne => ?_⟩ <;>
    first
    | (subst he
       simp [check_expr_type, h1, h2, obind])
    | (subst he
       simp [checker_check_expr_type, h1c, h2c])
    | (simp [check_expr_type, h1, h2, obind, hne])
    | (simp [checker_check_expr_type, h1c, h2c, hne])

theorem comparison_typing_amended_witness :
    (Ty.int = Ty.int →
      check_expr_type (mods_only []) (.equals (.intLiteral 0) (.intLiteral 0)) =
        .ok Ty.bool) ∧
    (Ty.int ≠ Ty.int →
      check_expr_type (mods_only []) (.equals (.intLiteral 0) (.intLiteral 0)) =
        .err (.type_mismatch Ty.int Ty.int)) ∧
    (Ty.int = Ty.int →
      checker_check_expr_type (fun _ => none)
        (.equals (.intLiteral 0) (.intLiteral 0)) = .ok Ty.int) ∧
    (Ty.int ≠ Ty.int →
      checker_check_expr_type (fun _ => none)
        (.equals (.intLiteral 0) (.intLiteral 0)) = .error .typeMismatch) :=
  comparison_typing_amended (by simp [cmp_ctors]) (mods_only []) (fun _ => none)
    rfl rfl rfl rfl

theorem get_program_functions_keys :
    ∀ (map : List (String × Nat)) (fuids : List Nat) (labels : List (String × Nat))
      (dlen : Nat) {fns : List (Nat × Nat)},
      get_program_functions map fuids labels dlen = .ok fns →
      ∀ uid v, (uid, v) ∈ fns →
        uid ∈ map.map Prod.snd ∧ fuids.contains uid = false := by
  intro map fuids labels dlen
  induction map with
  | nil =>
    intro fns h uid v hm
    unfold get_program_functions at h
    cases h
    simp at hm
  | cons p rest ih =>
    intro fns h uid v hm
    obtain ⟨nm0, uid0⟩ := p
    unfold get_program_functions at h
    rcases obind_ok.mp h with ⟨fns0, h0, h⟩
    by_cases hf : fuids.contains uid0 = true
    · rw [if_pos hf] at h
      cases h
      obtain ⟨hk1, hk2⟩ := ih h0 uid v hm
      exact ⟨by simp [hk1], hk2⟩
    · rw [if_neg hf] at h
      cases hlab : lookup_assoc labels nm0 with
      | none => rw [hlab] at h; cases h
      | some off =>
        rw [hlab] at h
        cases h
        rcases List.mem_cons.mp hm with he | hm0
        · cases he
          exact ⟨by simp, by simpa using hf⟩
        · obtain ⟨hk1, hk2⟩ := ih h0 uid v hm0
          exact ⟨by simp [hk1], hk2⟩

/-- C6: at program extraction, every `fn_uid_map` entry whose uid is not
in the foreign set maps (in the output table) to its label's recorded
offset plus the data segment's length; a foreign uid gets no entry. -/
theorem get_program_function_offsets :
    ∀ (map : List (String × Nat)) (fuids : List Nat) (labels : List (String × Nat))
      (dlen : Nat) (fns : List (Nat × Nat)),
      get_program_functions map fuids labels dlen = .ok fns →
      (map.map Prod.snd).Nodup →
      ∀ nm uid, (nm, uid) ∈ map →
        (fuids.contains uid = false →
          ∃ off, lookup_assoc labels nm = some off ∧
            lookup_assoc fns uid = some (off + dlen)) ∧
        (fuids.contains uid = true → ∀ v, ¬ (uid, v) ∈ fns) := by
  intro map fuids labels dlen
  induction map with
  | nil =>
    intro fns h hnd nm uid hm
    simp at hm
  | cons p rest ih =>
    intro fns h hnd nm uid hm
    obtain ⟨nm0, uid0⟩ := p
    unfold get_program_functions at h
    rcases obind_ok.mp h with ⟨fns0, h0, h⟩
    simp only [List.map_cons, List.nodup_cons] at hnd
    have hnd0 : (rest.map Prod.snd).Nodup := hnd.2
    have hnotin : ¬ uid0 ∈ rest.map Prod.snd := hnd.1
    rcases List.mem_cons.mp hm with he | hm0
    · cases he
      by_cases hf : fuids.contains uid = true
      · rw [if_pos hf] at h
        cases h
        refine ⟨fun hff => absurd hff (by rw [hf]; simp), fun _ v hv => ?_⟩
        exact absurd ((get_program_functions_keys rest fuids labels dlen h0
          uid v hv).2) (by rw [hf]; simp)
      · rw [if_neg hf] at h
        cases hlab : lookup_assoc labels nm with
        | none => rw [hlab] at h; cases h
        | some off =>
          rw [hlab] at h
          cases h
          refine ⟨fun _ => ⟨off, rfl, ?_⟩, fun hft => absurd hft hf⟩
          simp [lookup_assoc]
    · have huid : uid ∈ rest.map Prod.snd := List.mem_map_of_mem Prod.snd hm0
      have hne : uid0 ≠ uid := fun hq => hnotin (hq ▸ huid)
      obtain ⟨ih1, ih2⟩ := ih fns0 h0 hnd0 nm uid hm0
      by_cases hf : fuids.contains uid0 = true
      · rw [if_pos hf] at h
        cases h
        exact ⟨ih1, ih2⟩
      · rw [if_neg hf] at h
        cases hlab : lookup_assoc labels nm0 with
        | none => rw [hlab] at h; cases h
        | some off =>
          rw [hlab] at h
          cases h
          refine ⟨fun hff => ?_, fun hft v hv => ?_⟩
          · obtain ⟨o, ho1, ho2⟩ := ih1 hff
            exact ⟨o, ho1, by simp [lookup_assoc, hne, ho2]⟩
          · rcases List.mem_cons.mp hv with hx | hx
            · exact hne (by cases hx; rfl)
            · exact ih2 hft v hx

theorem get_program_function_offsets_witness :
    (([2] : List Nat).contains 1 = false →
      ∃ off, lookup_assoc [("f", 10), ("g", 20)] "f" = some off ∧
        lookup_assoc [(1, 15)] 1 = some (off + 5)) ∧
    (([2] : List Nat).contains 1 = true →
      ∀ v, ¬ ((1, v) ∈ ([(1, 15)] : List (Nat × Nat)))) :=
  get_program_function_offsets [("f", 1), ("g", 2)] [2] [("f", 10), ("g", 20)] 5
    [(1, 15)] rfl (by decide) "f" 1 (by simp)

theorem foreign_arg_loop_spec :
    ∀ (tys : List Ty) {d : List Nat × List Int × Int},
      foreign_arg_loop tys = .ok d →
      d.1 = tys.map size_default ∧ d.2.1 = arg_offsets_spec tys ∧
      d.2.2 = -(((tys.map size_default).sum : Int)) := by
  intro tys
  induction tys with
  | nil =>
    intro d h
    unfold foreign_arg_loop at h
    cases h
    simp [arg_offsets_spec]
  | cons t rest ih =>
    intro d h
    unfold foreign_arg_loop at h
    rcases obind_ok.mp h with ⟨d0, h0, h⟩
    rcases obind_ok.mp h with ⟨sz, hsz, h⟩
    cases h
    obtain ⟨e1, e2, e3⟩ := ih h0
    have hsd : size_default t = sz := by unfold size_default; rw [hsz]
    refine ⟨by simp [e1, hsd], ?_, ?_⟩
    · simp only [arg_offsets_spec, e2, e3, hsd]
      refine List.cons_eq_cons.mpr ⟨?_, rfl⟩
      push_cast
      omega
    · simp only [e3, List.map_cons, List.sum_cons, hsd]
      push_cast
      omega

theorem arg_offsets_spec_length (tys : List Ty) :
    (arg_offsets_spec tys).length = tys.length := by
  induction tys with
  | nil => rfl
  | cons t rest ih => simp [arg_offsets_spec, ih]

theorem arg_offsets_spec_get :
    ∀ (tys : List Ty) (i : Nat) (hi : i < (arg_offsets_spec tys).length),
      (arg_offsets_spec tys).get ⟨i, hi⟩ =
        -((((tys.drop i).map size_default).sum : Int)) := by
  intro tys
  induction tys with
  | nil => intro i hi; simp [arg_offsets_spec] at hi
  | cons t rest ih =>
    intro i hi
    cases i with
    | zero => simp [arg_offsets_spec]
    | succ j =>
      simp only [arg_offsets_spec, List.get_cons_succ, List.drop_succ_cons]
      exact ih j _

theorem get_function_uid_gen_ff (st : Compiler) (nm : String) :
    (get_function_uid_gen st nm).2.foreign_functions = st.foreign_functions := by
  unfold get_function_uid_gen
  cases lookup_assoc st.uid_memo nm <;> rfl

theorem register_foreign_function_layout {st : Compiler} {f : ApiFunction}
    {path : String} {st1 : Compiler}
    (h : register_foreign_function st f path = .ok st1)
    (hold : ∀ e ∈ st.foreign_functions, foreign_layout_ok e.2) :
    ∀ e ∈ st1.foreign_functions, foreign_layout_ok e.2 := by
  unfold register_foreign_function at h
  rcases obind_ok.mp h with ⟨d, hd, h⟩
  simp only [] at h
  split at h
  · cases h
  · rcases obind_ok.mp h with ⟨m1, hm1, h⟩
    cases h
    intro e he
    simp only [get_function_uid_gen_ff] at he
    rcases List.mem_cons.mp he with he0 | he0
    · subst he0
      obtain ⟨e1, e2, _⟩ := foreign_arg_loop_spec f.arg_types hd
      exact ⟨e1, e2⟩
    · exact hold e he0

theorem register_foreign_fn_list_layout :
    ∀ (l : List (String × ApiFunction)) (st : Compiler) (path : String)
      {st1 : Compiler},
      register_foreign_fn_list st l path = .ok st1 →
      (∀ e ∈ st.foreign_functions, foreign_layout_ok e.2) →
      ∀ e ∈ st1.foreign_functions, foreign_layout_ok e.2 := by
  intro l
  induction l with
  | nil =>
    intro st path st1 h hold
    unfold register_foreign_fn_list at h
    cases h
    exact hold
  | cons p rest ih =>
    intro st path st1 h hold
    unfold register_foreign_fn_list at h
    rcases obind_ok.mp h with ⟨sta, ha, h⟩
    exact ih sta path h (register_foreign_function_layout ha hold)

theorem register_foreign_module_layout :
    ∀ (n : Nat) (m : ApiModule), sizeOf m ≤ n →
      ∀ (st : Compiler) (path : String) {st1 : Compiler},
        register_foreign_module st m path = .ok st1 →
        (∀ e ∈ st.foreign_functions, foreign_layout_ok e.2) →
        ∀ e ∈ st1.foreign_functions, foreign_layout_ok e.2 := by
  intro n
  induction n with
  | zero =>
    intro m hm
    exfalso
    cases m
    simp at hm
  | succ n ih =>
    have hlist : ∀ (l : List (String × ApiModule)), (∀ p ∈ l, sizeOf p.2 ≤ n) →
        ∀ (st : Compiler) (path : String) {st1 : Compiler},
          register_foreign_mod_list st l path = .ok st1 →
          (∀ e ∈ st.foreign_functions, foreign_layout_ok e.2) →
          ∀ e ∈ st1.foreign_functions, foreign_layout_ok e.2 := by
      intro l
      induction l with
      | nil =>
        intro hb st path st1 h hold
        unfold register_foreign_mod_list at h
        cases h
        exact hold
      | cons p rest ihl =>
        intro hb st path st1 h hold
        unfold register_foreign_mod_list at h
        rcases obind_ok.mp h with ⟨sta, ha, h⟩
        refine ihl (fun q hq => hb q (List.mem_cons_of_mem p hq)) sta path h ?_
        exact ih p.2 (hb p (List.mem_cons_self p rest)) st path ha hold
    intro m hm st path st1 h hold
    obtain ⟨mn, mf, mm⟩ := m
    unfold register_foreign_module at h
    rcases obind_ok.mp h with ⟨st2, h2, h⟩
    rcases obind_ok.mp h with ⟨st3, h3, h⟩
    rcases obind_ok.mp h with ⟨popped, hpop, h⟩
    split at h
    · cases h
    · rcases obind_ok.mp h with ⟨m1, hm1, h⟩
      cases h
      intro e he
      simp only [] at he
      have hff : popped.2.foreign_functions = st3.foreign_functions := by
        unfold pop_module_context at hpop
        split at hpop
        · cases hpop
        · cases hpop
          rfl
      rw [hff] at he
      have hsz : ∀ p ∈ mm, sizeOf (p : String × ApiModule).2 ≤ n := by
        intro p hp
        have h1 := List.sizeOf_lt_of_mem hp
        have h2 : sizeOf p.2 ≤ sizeOf p := by
          obtain ⟨p1, p2⟩ := p
          simp
        simp at hm
        omega
      have hfn := register_foreign_fn_list_layout mf
        (push_module_context st (ModuleContext.new mn)) (path ++ mn ++ "::") h2
        (by intro q hq; exact hold q hq)
      exact hlist mm hsz st2 (path ++ mn ++ "::") h3 hfn e he

/-- C7: after registering a foreign module tree from a state whose
foreign table already satisfies the layout, every stored descriptor has
`arg_sizes[i] = size_of(arg_types[i])` and
`arg_offsets[i] = -(sum of size_of(arg_types[j]) for j >= i)`. -/
theorem foreign_registration_arg_layout {st : Compiler} {m : ApiModule}
    {st1 : Compiler} (h : register_foreign_root_module st m = .ok st1)
    (hold : ∀ e ∈ st.foreign_functions, foreign_layout_ok e.2) :
    ∀ e ∈ st1.foreign_functions,
      e.2.arg_sizes = e.2.arg_types.map size_default ∧
      e.2.arg_offsets.length = e.2.arg_types.length ∧
      ∀ i (hi : i < e.2.arg_offsets.length),
        e.2.arg_offsets.get ⟨i, hi⟩ =
          -((((e.2.arg_types.drop i).map size_default).sum : Int)) := by
  intro e he
  obtain ⟨h1, h2⟩ := register_foreign_module_layout (sizeOf m) m (Nat.le_refl _)
    st "root::" h hold e he
  refine ⟨h1, ?_, ?_⟩
  · rw [h2, arg_offsets_spec_length]
  · intro i hi
    have hi2 : i < (arg_offsets_spec e.2.arg_types).length := by rw [← h2]; exact hi
    have hx := arg_offsets_spec_get e.2.arg_types i hi2
    rw [← hx]
    exact List.get_of_eq h2 ⟨i, hi⟩

unseal register_foreign_module register_foreign_mod_list in
theorem foreign_registration_arg_layout_witness :
    c7_entry.2.arg_sizes = c7_entry.2.arg_types.map size_default ∧
    c7_entry.2.arg_offsets.length = c7_entry.2.arg_types.length ∧
    ∀ i (hi : i < c7_entry.2.arg_offsets.length),
      c7_entry.2.arg_offsets.get ⟨i, hi⟩ =
        -((((c7_entry.2.arg_types.drop i).map size_default).sum : Int)) :=
  @foreign_registration_arg_layout (mods_only [ModuleContext.new "root"]) c7_api
    c7_st1 rfl (fun e he => nomatch he)
    c7_entry (List.mem_cons_self c7_entry [])

theorem lookup_assoc_rebase (c : Int) :
    ∀ (l : List (String × Ty × Int)) (k : String),
      lookup_assoc (l.map (fun v => (v.1, v.2.1, v.2.2 - c))) k =
        (lookup_assoc l k).map (fun q => (q.1, q.2 - c)) := by
  intro l k
  induction l with
  | nil => rfl
  | cons p rest ih =>
    obtain ⟨pk, pt, pp⟩ := p
    by_cases hk : pk = k
    · simp [lookup_assoc, hk]
    · simp [lookup_assoc, hk, ih]

theorem var_type_weak_push (f : FunctionContext) (rest : List FunctionContext)
    (nm : String) :
    var_type_in_ctxs (FunctionContext.new_weak f :: f :: rest) nm =
      var_type_in_ctxs (f :: rest) nm := by
  simp only [var_type_in_ctxs, FunctionContext.new_weak, lookup_assoc_rebase]
  cases h : lookup_assoc f.vars nm with
  | none => simp
  | some tv => simp

theorem var_type_loop_push (f : FunctionContext) (rest : List FunctionContext)
    (nm : String) :
    var_type_in_ctxs (FunctionContext.new_loop f :: f :: rest) nm =
      var_type_in_ctxs (f :: rest) nm := by
  have h := var_type_weak_push f rest nm
  simp only [var_type_in_ctxs] at h ⊢
  exact h

theorem check_expr_congr :
    ∀ (n : Nat) (e : Expression) (st st2 : Compiler),
      sizeOf e ≤ n →
      (∀ nm, var_type_in_ctxs st2.fn_context_stack nm =
          var_type_in_ctxs st.fn_context_stack nm) →
      check_expr_type st2 e = check_expr_type st e := by
  intro n
  induction n with
  | zero =>
    intro e st st2 he hv
    exfalso
    cases e <;> simp at he
  | succ n ih =>
    intro e st st2 he hv
    cases e with
    | intLiteral v => rfl
    | floatLiteral v => rfl
    | boolLiteral v => rfl
    | stringLiteral v => rfl
    | «variable» nm => simp [check_expr_type, get_type_of_var, hv]
    | call f a => rfl
    | assign l r =>
      simp only [check_expr_type]
      rw [ih l st st2 (by simp at he; omega) hv, ih r st st2 (by simp at he; omega) hv]
    | addition l r =>
      simp only [check_expr_type]
      rw [ih l st st2 (by simp at he; omega) hv, ih r st st2 (by simp at he; omega) hv]
    | subtraction l r =>
      simp only [check_expr_type]
      rw [ih l st st2 (by simp at he; omega) hv, ih r st st2 (by simp at he; omega) hv]
    | multiplication l r =>
      simp only [check_expr_type]
      rw [ih l st st2 (by simp at he; omega) hv, ih r st st2 (by simp at he; omega) hv]
    | division l r =>
      simp only [check_expr_type]
      rw [ih l st st2 (by simp at he; omega) hv, ih r st st2 (by simp at he; omega) hv]
    | lessThan l r =>
      simp only [check_expr_type]
      rw [ih l st st2 (by simp at he; omega) hv, ih r st st2 (by simp at he; omega) hv]
    | greaterThan l r =>
      simp only [check_expr_type]
      rw [ih l st st2 (by simp at he; omega) hv, ih r st st2 (by simp at he; omega) hv]
    | lessThanEquals l r =>
      simp only [check_expr_type]
      rw [ih l st st2 (by simp at he; omega) hv, ih r st st2 (by simp at he; omega) hv]
    | greaterThanEquals l r =>
      simp only [check_expr_type]
      rw [ih l st st2 (by simp at he; omega) hv, ih r st st2 (by simp at he; omega) hv]
    | equals l r =>
      simp only [check_expr_type]
      rw [ih l st st2 (by simp at he; omega) hv, ih r st st2 (by simp at he; omega) hv]
    | notEquals l r =>
      simp only [check_expr_type]
      rw [ih l st st2 (by simp at he; omega) hv, ih r st st2 (by simp at he; omega) hv]
    | and l r =>
      simp only [check_expr_type]
      rw [ih l st st2 (by simp at he; omega) hv, ih r st st2 (by simp at he; omega) hv]
    | or l r =>
      simp only [check_expr_type]
      rw [ih l st st2 (by simp at he; omega) hv, ih r st st2 (by simp at he; omega) hv]
    | not op =>
      simp only [check_expr_type]
      rw [ih op st st2 (by simp at he; omega) hv]
    | addAssign l r => rfl
    | subAssign l r => rfl
    | mulAssign l r => rfl
    | divAssign l r => rfl

set_option maxHeartbeats 1000000 in
/-- C9 (amended): when the condition of an `if` type-checks to `T` and
`T` is not `Bool`, compilation fails with `TypeMismatch(T, Bool)` (got
first); the same condition in a `while` fails with `TypeMismatch(Bool,
T)` (expected first).  The claimed expected-first order holds only for
`while`. -/
theorem condition_type_mismatch_payload_order {c : Expression} {T : Ty}
    {st : Compiler} (hT : T ≠ Ty.bool) (hchk : check_expr_type st c = .ok T) :
    (∀ b ei el, compile_if_stmt c b ei el st = .err (.type_mismatch T .bool)) ∧
    (∀ b cur, get_current_function st = .ok cur →
      compile_while_stmt c b st = .err (.type_mismatch .bool T)) := by
  constructor
  · intro b ei el
    have hg : check_expr_type (generate_uid (generate_uid st).2).2 c = .ok T := by
      rw [check_expr_congr (sizeOf c) c st (generate_uid (generate_uid st).2).2
        (Nat.le_refl _) (fun nm => rfl), hchk]
    unfold compile_if_stmt
    simp only [hg, obind]
    rw [if_pos hT]
  · intro b cur hcur
    obtain ⟨tail, hfn⟩ : ∃ t, st.fn_context_stack = cur :: t := by
      unfold get_current_function at hcur
      cases hf : st.fn_context_stack with
      | nil => rw [hf] at hcur; cases hcur
      | cons a r =>
        rw [hf] at hcur
        cases hcur
        exact ⟨r, rfl⟩
    have hv : ∀ nm,
        var_type_in_ctxs (FunctionContext.new_loop cur :: st.fn_context_stack) nm =
          var_type_in_ctxs st.fn_context_stack nm := by
      intro nm
      rw [hfn]
      exact var_type_loop_push cur tail nm
    have hg : check_expr_type
        (push_loop_context
          (generate_uid (push_function_context st (FunctionContext.new_loop cur))).2
          { pos_start :=
              get_current_offset (push_function_context st (FunctionContext.new_loop cur)),
            tag_end :=
              (generate_uid (push_function_context st (FunctionContext.new_loop cur))).1 })
        c = .ok T := by
      rw [check_expr_congr (sizeOf c) c st _ (Nat.le_refl _) hv, hchk]
    unfold compile_while_stmt
    rw [hcur]
    simp only [obind, hg]
    rw [if_pos hT]

theorem condition_type_mismatch_payload_order_witness :
    (∀ b ei el, compile_if_stmt (.intLiteral 1) b ei el c9_demo =
      .err (.type_mismatch .int .bool)) ∧
    (∀ b cur, get_current_function c9_demo = .ok cur →
      compile_while_stmt (.intLiteral 1) b c9_demo =
        .err (.type_mismatch .bool .int)) :=
  condition_type_mismatch_payload_order (by decide) rfl

end Pgs
